import Mathlib

/-!
Verification of a webhook SMS-ingestion service (FastAPI + SQLite backend).

The development is a shallow embedding of the service's core pipeline:
signature-authenticated intake (`webhook`), payload validation
(`WebhookMessage.validate_fields`), idempotent persistence (`insert_message`),
filtered and paginated retrieval (`fetch_messages`, `count_messages`,
`get_messages`) and aggregate statistics (`get_stats`).

Modelling conventions:
- The SQLite `messages` table is a `List Row` in rowid (insertion) order;
  the `PRIMARY KEY (message_id)` constraint appears as the hypothesis that
  the stored `message_id`s are pairwise distinct where a theorem needs it.
- SQLite compares `TEXT` values bytewise (memcmp over UTF-8), which equals
  lexicographic comparison of code points; `ltCL`/`leCL` implement that
  order on `List Char` executably.
- Machine-level byte strings are `List Nat` with each entry < 256.
- Python / SQLite library functions used by the code (`re` matching of the
  E.164 regex, `datetime.fromisoformat`, `str.strip`, `str.lower`,
  `LOWER`, `LIKE`, HMAC-SHA256) are embedded as executable functions,
  restricted to ASCII where the original is Unicode-aware; each definition
  documents its scope.
-/

/-! ## Lexicographic order on character lists (SQLite memcmp order) -/

/-- Strict lexicographic order on `List Char` by code point: the order in
which SQLite compares `TEXT` values (memcmp over UTF-8 preserves code-point
order). -/
def ltCL : List Char → List Char → Bool
  | [], [] => false
  | [], _ :: _ => true
  | _ :: _, [] => false
  | a :: as, b :: bs => decide (a < b) || (decide (a = b) && ltCL as bs)

/-- Non-strict lexicographic order on `List Char` by code point. -/
def leCL : List Char → List Char → Bool
  | [], _ => true
  | _ :: _, [] => false
  | a :: as, b :: bs => decide (a < b) || (decide (a = b) && leCL as bs)

/-- Strict SQLite `TEXT` comparison on strings. -/
def ltStr (a b : String) : Bool := ltCL a.data b.data

/-- Non-strict SQLite `TEXT` comparison on strings. -/
def leStr (a b : String) : Bool := leCL a.data b.data

/-! ## Character and string utilities -/

/-- ASCII decimal digit test (model of Python's `\d` and `str.isdigit`,
restricted to ASCII; Python also accepts other Unicode decimal digits,
which are outside the scope of this embedding). -/
def isDigitC (c : Char) : Bool := decide ('0' ≤ c) && decide (c ≤ '9')

/-- ASCII lower-casing of one character: the case folding performed by
SQLite's `LOWER`, and by Python's `str.lower` on ASCII input (Python also
folds non-ASCII letters; this embedding is exact on ASCII). -/
def asciiLower (c : Char) : Char :=
  if 'A' ≤ c ∧ c ≤ 'Z' then Char.ofNat (c.toNat + 32) else c

/-- The whitespace characters removed by Python's `str.strip` (ASCII part;
`str.strip` also removes other Unicode whitespace, outside this scope). -/
def isPySpace (c : Char) : Bool :=
  decide (c = ' ') || decide (c = '\t') || decide (c = '\n') ||
  decide (c = '\x0d') || decide (c = '\x0b') || decide (c = '\x0c')

/-- Model of Python's `str.strip()`: remove leading and trailing
whitespace. -/
def pyStrip (s : String) : String :=
  String.mk (((s.data.dropWhile isPySpace).reverse.dropWhile isPySpace).reverse)

/-- True when the string's first character exists and is `+`. -/
def startsPlus (s : String) : Bool :=
  match s.data with
  | '+' :: _ => true
  | _ => false

/-- True when the string's first character exists and is an ASCII digit
(model of `s[0].isdigit()` on a non-empty string). -/
def firstDigit (s : String) : Bool :=
  match s.data with
  | c :: _ => isDigitC c
  | [] => false

/-- `text` column read back with `COALESCE(text, '')`. -/
def textOrEmpty : Option String → String
  | some t => t
  | none => ""

/-! ## SQLite `LIKE` matching -/

/-- Fuel-driven core of the SQLite `LIKE` matcher. `%` matches any
(possibly empty) character sequence and `_` matches exactly one character;
every other pattern character must equal the text character. Each recursive
call shrinks `pattern.length + text.length`, so fuel larger than that sum
never runs out; `likeM` supplies such fuel. Both sides are compared without
further case folding: the caller lowers both operands, mirroring
`LOWER(text) LIKE lower(q)` in the code (SQLite's own ASCII folding is then
a no-op). -/
def likeFuel : Nat → List Char → List Char → Bool
  | 0, _, _ => false
  | fuel + 1, pat, t =>
    match pat, t with
    | [], rest => rest.isEmpty
    | '%' :: ps, [] => likeFuel fuel ps []
    | '%' :: ps, c :: ts => likeFuel fuel ps (c :: ts) || likeFuel fuel ('%' :: ps) ts
    | '_' :: _, [] => false
    | '_' :: ps, _ :: ts => likeFuel fuel ps ts
    | _ :: _, [] => false
    | p :: ps, c :: ts => (p == c) && likeFuel fuel ps ts

/-- SQLite `LIKE`: does `pat` match the whole of `t`? -/
def likeM (pat t : List Char) : Bool := likeFuel (pat.length + t.length + 1) pat t

/-- The `LIKE` pattern the code builds for the free-text filter:
`"%" + q.lower() + "%"`. -/
def likePattern (q : String) : List Char := '%' :: (q.data.map asciiLower ++ ['%'])

/-- Does `needle` occur in `hay` starting at position 0? (Helper for the
plain substring notion used by the specification's wording.) -/
def startsList : List Char → List Char → Bool
  | [], _ => true
  | _ :: _, [] => false
  | a :: as, b :: bs => (a == b) && startsList as bs

/-- Does `needle` occur contiguously anywhere in `hay`? -/
def hasSub (needle : List Char) : List Char → Bool
  | [] => needle.isEmpty
  | c :: cs => startsList needle (c :: cs) || hasSub needle cs

/-- Case-insensitive substring test, the reading of "q is a case-insensitive
substring of text" in the specification (ASCII case folding). -/
def ciSubstringB (needle hay : String) : Bool :=
  hasSub (needle.data.map asciiLower) (hay.data.map asciiLower)

/-! ## E.164 phone-number regex

The code compiles `^\+[1-9]\d{7,14}$` and tests values with `re.match`.
Python's `$` anchor matches at the end of the string and also just before a
newline that is the string's last character, so the regex additionally
accepts a value with one trailing `"\n"`. `\d` is modelled as ASCII
(see `isDigitC`). -/

/-- After `+` and the leading `[1-9]` digit, the rest of the value must be
`n` further digits with `7 ≤ n ≤ 14`, optionally followed by one final
newline (Python's `$`). `n` counts the digits consumed so far. -/
def e164Tail : List Char → Nat → Bool
  | [], n => decide (7 ≤ n) && decide (n ≤ 14)
  | c :: cs, n =>
    (decide (c = '\n') && cs.isEmpty && decide (7 ≤ n) && decide (n ≤ 14)) ||
    (isDigitC c && e164Tail cs (n + 1))

/-- `bool(E164_REGEX.match(s))` on the character list of the value, for the
code's regex `^\+[1-9]\d{7,14}$`. -/
def E164core : List Char → Bool
  | c :: d :: rest =>
    decide (c = '+') && decide ('1' ≤ d) && decide (d ≤ '9') && e164Tail rest 0
  | _ => false

/-- `bool(E164_REGEX.match(s))` for the code's regex `^\+[1-9]\d{7,14}$`. -/
def E164_match (s : String) : Bool := E164core s.data

/-- The E.164 shape exactly as the specification words it: `+`, a leading
digit `1`-`9`, then 7 to 14 further digits, and nothing else. -/
def specE164core : List Char → Bool
  | c :: d :: rest =>
    decide (c = '+') && decide ('1' ≤ d) && decide (d ≤ '9') && rest.all isDigitC &&
    decide (7 ≤ rest.length) && decide (rest.length ≤ 14)
  | _ => false

/-- String-level version of `specE164core`. -/
def specE164 (s : String) : Bool := specE164core s.data

/-- The E.164 acceptance the code actually implements, stated in the
specification's vocabulary: the exact E.164 shape, or that shape followed by
one trailing newline (an artifact of Python's `$` anchor). -/
def E164amended (s : String) : Bool :=
  specE164core s.data ||
  (decide (s.data.getLast? = some '\n') && specE164core s.data.dropLast)

/-! ## Timestamp parsing

Model of `datetime.fromisoformat` restricted to the ISO-8601 forms
`YYYY-MM-DD[{T, space}HH[:MM[:SS[.f{1,6}]]][{+,-}HH:MM]]` with calendar
validation (month 1-12, day within the month, leap years; hour at most 23,
minute and second at most 59, offset hour at most 23). CPython accepts some
further variants that the service never produces and whose acceptance varies
between Python versions; they are outside this embedding's scope. -/

/-- Read exactly two ASCII digits as a number. -/
def read2 : List Char → Option (Nat × List Char)
  | a :: b :: rest =>
    if isDigitC a && isDigitC b then some (10 * (a.toNat - 48) + (b.toNat - 48), rest)
    else none
  | _ => none

/-- Read exactly four ASCII digits as a number. -/
def read4 : List Char → Option (Nat × List Char)
  | a :: b :: c :: d :: rest =>
    if isDigitC a && isDigitC b && isDigitC c && isDigitC d then
      some (1000 * (a.toNat - 48) + 100 * (b.toNat - 48) + 10 * (c.toNat - 48) + (d.toNat - 48), rest)
    else none
  | _ => none

/-- `HH:MM`, consuming the whole remaining input (the body of a UTC
offset). -/
def parseHM (cs : List Char) : Bool :=
  match read2 cs with
  | some (h, rest) =>
    match rest with
    | c :: rest2 =>
      decide (c = ':') && decide (h ≤ 23) &&
      (match read2 rest2 with
       | some (m, rest3) => rest3.isEmpty && decide (m ≤ 59)
       | none => false)
    | [] => false
  | none => false

/-- Optional trailing UTC offset `{+,-}HH:MM`; empty input is accepted
(no offset). -/
def parseOffset : List Char → Bool
  | [] => true
  | c :: rest => (decide (c = '+') || decide (c = '-')) && parseHM rest

/-- Optional fractional seconds `.f{1,6}` followed by the optional
offset. -/
def parseFracOffset : List Char → Bool
  | [] => true
  | c :: rest =>
    if c = '.' then
      decide (1 ≤ (rest.takeWhile isDigitC).length) &&
      decide ((rest.takeWhile isDigitC).length ≤ 6) &&
      parseOffset (rest.dropWhile isDigitC)
    else parseOffset (c :: rest)

/-- Optional `:SS` (with optional fraction) followed by the optional
offset. -/
def parseSecond : List Char → Bool
  | [] => true
  | c :: rest =>
    if c = ':' then
      match read2 rest with
      | some (s, rest2) => decide (s ≤ 59) && parseFracOffset rest2
      | none => false
    else parseOffset (c :: rest)

/-- Optional `:MM` (with optional seconds) followed by the optional
offset. -/
def parseMinSec : List Char → Bool
  | [] => true
  | c :: rest =>
    if c = ':' then
      match read2 rest with
      | some (m, rest2) => decide (m ≤ 59) && parseSecond rest2
      | none => false
    else parseOffset (c :: rest)

/-- Time-of-day part `HH[:MM[:SS[.frac]]]` with optional offset. -/
def parseTime (cs : List Char) : Bool :=
  match read2 cs with
  | some (h, rest) => decide (h ≤ 23) && parseMinSec rest
  | none => false

/-- Days in a month of the proleptic Gregorian calendar. -/
def daysInMonth (y m : Nat) : Nat :=
  if m = 2 then
    (if (y % 4 = 0 && decide (y % 100 ≠ 0)) || y % 400 = 0 then 29 else 28)
  else if m = 4 || m = 6 || m = 9 || m = 11 then 30 else 31

/-- After the date: either end of input, or a separator (`T` or space) and a
time part. -/
def dateTail : List Char → Bool
  | [] => true
  | c :: rest => (decide (c = 'T') || decide (c = ' ')) && parseTime rest

/-- Whole-input ISO-8601 date-time recognizer (see the section comment for
scope). -/
def fromisoL (cs : List Char) : Bool :=
  match read4 cs with
  | some (y, rest) =>
    match rest with
    | c1 :: rest1 =>
      decide (c1 = '-') &&
      (match read2 rest1 with
       | some (mo, rest2) =>
         match rest2 with
         | c2 :: rest3 =>
           decide (c2 = '-') &&
           (match read2 rest3 with
            | some (d, rest4) =>
              decide (1 ≤ y) && decide (1 ≤ mo) && decide (mo ≤ 12) &&
              decide (1 ≤ d) && decide (d ≤ daysInMonth y mo) && dateTail rest4
            | none => false)
         | [] => false
       | none => false)
    | [] => false
  | none => false

/-- Model of Python's `ts.replace("Z", "+00:00")`: every occurrence of `Z`
is replaced, not only a trailing one. -/
def replaceZ : List Char → List Char
  | [] => []
  | c :: cs =>
    if c = 'Z' then '+' :: '0' :: '0' :: ':' :: '0' :: '0' :: replaceZ cs
    else c :: replaceZ cs

/-- Model of `ts.endswith("Z")`. -/
def lastZ (s : String) : Bool := decide (s.data.getLast? = some 'Z')

/-! ## HMAC-SHA256 (the signature scheme)

`compute_signature` in the code is
`hmac.new(secret.encode("utf-8"), raw_body, hashlib.sha256).hexdigest()`.
The embedding below implements SHA-256 (FIPS 180-4) and HMAC (RFC 2104)
over byte lists, with 32-bit words as `Nat` reduced mod `2 ^ 32`. -/

/-- Truncate to a 32-bit word. -/
def w32 (n : Nat) : Nat := n % 4294967296

/-- Right-rotate a 32-bit word by `n` bits. -/
def rotr (n x : Nat) : Nat := w32 (x / 2 ^ n + x % 2 ^ n * 2 ^ (32 - n))

/-- Bitwise complement of a 32-bit word (valid for `x < 2 ^ 32`). -/
def comp32 (x : Nat) : Nat := 4294967295 - x

def bsig0 (x : Nat) : Nat := Nat.xor (rotr 2 x) (Nat.xor (rotr 13 x) (rotr 22 x))
def bsig1 (x : Nat) : Nat := Nat.xor (rotr 6 x) (Nat.xor (rotr 11 x) (rotr 25 x))
def ssig0 (x : Nat) : Nat := Nat.xor (rotr 7 x) (Nat.xor (rotr 18 x) (x / 2 ^ 3))
def ssig1 (x : Nat) : Nat := Nat.xor (rotr 17 x) (Nat.xor (rotr 19 x) (x / 2 ^ 10))
def chF (e f g : Nat) : Nat := Nat.xor (Nat.land e f) (Nat.land (comp32 e) g)
def majF (a b c : Nat) : Nat :=
  Nat.xor (Nat.land a b) (Nat.xor (Nat.land a c) (Nat.land b c))

/-- The SHA-256 round constants (FIPS 180-4 section 4.2.2), written in
decimal. -/
def shaK : List Nat :=
  [1116352408, 1899447441, 3049323471, 3921009573,
   961987163, 1508970993, 2453635748, 2870763221,
   3624381080, 310598401, 607225278, 1426881987,
   1925078388, 2162078206, 2614888103, 3248222580,
   3835390401, 4022224774, 264347078, 604807628,
   770255983, 1249150122, 1555081692, 1996064986,
   2554220882, 2821834349, 2952996808, 3210313671,
   3336571891, 3584528711, 113926993, 338241895,
   666307205, 773529912, 1294757372, 1396182291,
   1695183700, 1986661051, 2177026350, 2456956037,
   2730485921, 2820302411, 3259730800, 3345764771,
   3516065817, 3600352804, 4094571909, 275423344,
   430227734, 506948616, 659060556, 883997877,
   958139571, 1322822218, 1537002063, 1747873779,
   1955562222, 2024104815, 2227730452, 2361852424,
   2428436474, 2756734187, 3204031479, 3329325298]

/-- The eight-word SHA-256 hash state. -/
structure Sha8 where
  a : Nat
  b : Nat
  c : Nat
  d : Nat
  e : Nat
  f : Nat
  g : Nat
  h : Nat
deriving Repr, DecidableEq

/-- SHA-256 initial hash value (FIPS 180-4 section 5.3.3), in decimal. -/
def shaInit : Sha8 :=
  Sha8.mk 1779033703 3144134277 1013904242 2773480762
    1359893119 2600822924 528734635 1541459225

/-- Big-endian 32-bit words from a block of bytes. -/
def bytesToWords : List Nat → List Nat
  | b0 :: b1 :: b2 :: b3 :: rest =>
    (((b0 * 256 + b1) * 256 + b2) * 256 + b3) :: bytesToWords rest
  | _ => []

/-- One step of the message-schedule extension: append
`ssig1 W[t-2] + W[t-7] + ssig0 W[t-15] + W[t-16]`. -/
def extendStep (w : List Nat) : List Nat :=
  w ++ [w32 (ssig1 (w.getD (w.length - 2) 0) + w.getD (w.length - 7) 0 +
        ssig0 (w.getD (w.length - 15) 0) + w.getD (w.length - 16) 0)]

/-- The 64-entry message schedule from the 16 words of a block. -/
def fullW (w16 : List Nat) : List Nat :=
  (List.range 48).foldl (fun w _ => extendStep w) w16

/-- One SHA-256 compression round for round constant `k` and schedule word
`w`. -/
def shaRound (s : Sha8) (kw : Nat × Nat) : Sha8 :=
  Sha8.mk
    (w32 (s.h + bsig1 s.e + chF s.e s.f s.g + kw.1 + kw.2 +
      (w32 (bsig0 s.a + majF s.a s.b s.c))))
    s.a s.b s.c
    (w32 (s.d + s.h + bsig1 s.e + chF s.e s.f s.g + kw.1 + kw.2))
    s.e s.f s.g

/-- Process one 64-byte block. -/
def processBlock (hs : Sha8) (block : List Nat) : Sha8 :=
  Sha8.mk
    (w32 (hs.a + ((shaK.zip (fullW (bytesToWords block))).foldl shaRound hs).a))
    (w32 (hs.b + ((shaK.zip (fullW (bytesToWords block))).foldl shaRound hs).b))
    (w32 (hs.c + ((shaK.zip (fullW (bytesToWords block))).foldl shaRound hs).c))
    (w32 (hs.d + ((shaK.zip (fullW (bytesToWords block))).foldl shaRound hs).d))
    (w32 (hs.e + ((shaK.zip (fullW (bytesToWords block))).foldl shaRound hs).e))
    (w32 (hs.f + ((shaK.zip (fullW (bytesToWords block))).foldl shaRound hs).f))
    (w32 (hs.g + ((shaK.zip (fullW (bytesToWords block))).foldl shaRound hs).g))
    (w32 (hs.h + ((shaK.zip (fullW (bytesToWords block))).foldl shaRound hs).h))

/-- Big-endian 8-byte encoding of the message bit length. -/
def lenBytes (n : Nat) : List Nat :=
  [n / 2 ^ 56 % 256, n / 2 ^ 48 % 256, n / 2 ^ 40 % 256, n / 2 ^ 32 % 256,
   n / 2 ^ 24 % 256, n / 2 ^ 16 % 256, n / 2 ^ 8 % 256, n % 256]

/-- SHA-256 padding: `0x80`, zeros to 56 mod 64, then the bit length. -/
def sha256pad (msg : List Nat) : List Nat :=
  msg ++ 0x80 :: List.replicate ((119 - msg.length % 64) % 64) 0 ++
    lenBytes (8 * msg.length)

/-- Split into successive 64-byte chunks (fuel-driven; the fuel, one unit
per element, is always sufficient since each step drops at least one
element). -/
def chunksAux : Nat → List Nat → List (List Nat)
  | 0, _ => []
  | _, [] => []
  | fuel + 1, l => l.take 64 :: chunksAux fuel (l.drop 64)

def chunks64 (l : List Nat) : List (List Nat) := chunksAux l.length l

/-- Big-endian bytes of one 32-bit word. -/
def wordBytes (w : Nat) : List Nat :=
  [w / 2 ^ 24 % 256, w / 2 ^ 16 % 256, w / 2 ^ 8 % 256, w % 256]

/-- SHA-256 digest (32 bytes) of a byte list. -/
def sha256 (msg : List Nat) : List Nat :=
  wordBytes ((chunks64 (sha256pad msg)).foldl processBlock shaInit).a ++
  wordBytes ((chunks64 (sha256pad msg)).foldl processBlock shaInit).b ++
  wordBytes ((chunks64 (sha256pad msg)).foldl processBlock shaInit).c ++
  wordBytes ((chunks64 (sha256pad msg)).foldl processBlock shaInit).d ++
  wordBytes ((chunks64 (sha256pad msg)).foldl processBlock shaInit).e ++
  wordBytes ((chunks64 (sha256pad msg)).foldl processBlock shaInit).f ++
  wordBytes ((chunks64 (sha256pad msg)).foldl processBlock shaInit).g ++
  wordBytes ((chunks64 (sha256pad msg)).foldl processBlock shaInit).h

/-- Lower-case hex digit for a value below 16. -/
def hexChar (n : Nat) : Char :=
  if n < 10 then Char.ofNat (48 + n) else Char.ofNat (87 + n)

/-- Lower-case hex characters of a byte list (two characters per byte). -/
def hexChars (bs : List Nat) : List Char :=
  bs.foldr (fun b acc => hexChar (b / 16 % 16) :: hexChar (b % 16) :: acc) []

/-- `hexdigest()` of a byte list. -/
def hexOfBytes (bs : List Nat) : String := String.mk (hexChars bs)

/-- UTF-8 encoding of one character. -/
def utf8Char (c : Char) : List Nat :=
  if c.toNat < 128 then [c.toNat]
  else if c.toNat < 2048 then [192 + c.toNat / 64, 128 + c.toNat % 64]
  else if c.toNat < 65536 then
    [224 + c.toNat / 4096, 128 + c.toNat / 64 % 64, 128 + c.toNat % 64]
  else
    [240 + c.toNat / 262144, 128 + c.toNat / 4096 % 64,
     128 + c.toNat / 64 % 64, 128 + c.toNat % 64]

/-- Model of `s.encode("utf-8")`. -/
def utf8Bytes (s : String) : List Nat :=
  s.data.foldr (fun c acc => utf8Char c ++ acc) []

/-- HMAC-SHA256 (RFC 2104) over byte lists. -/
def hmacSha256 (key msg : List Nat) : List Nat :=
  sha256
    (((if 64 < key.length then sha256 key else key) ++
        List.replicate (64 - (if 64 < key.length then sha256 key else key).length) 0).map
      (fun b => Nat.xor b 92) ++
     sha256
      ((((if 64 < key.length then sha256 key else key) ++
          List.replicate (64 - (if 64 < key.length then sha256 key else key).length) 0).map
        (fun b => Nat.xor b 54)) ++ msg))

/-- `compute_signature(secret, raw_body)` from `app/main.py`: hex HMAC-SHA256
of the raw body under the UTF-8 bytes of the secret. -/
def compute_signature (secret : String) (raw_body : List Nat) : String :=
  hexOfBytes (hmacSha256 (utf8Bytes secret) raw_body)

/-! ## Data model and storage layer (`app/storage.py`, `app/models.py`) -/

/-- One row of the `messages` table (`CREATE TABLE messages` in
`app/models.py`). -/
structure Row where
  message_id : String
  from_msisdn : String
  to_msisdn : String
  ts : String
  text : Option String
  created_at : String
deriving Repr, DecidableEq

/-- `insert_message` from `app/storage.py`: one conditional `INSERT`.
The table is a `List Row` in rowid order; the `PRIMARY KEY (message_id)`
constraint turns an insert with an existing id into an
`sqlite3.IntegrityError`, which the function catches and reports as a
duplicate, touching nothing. Returns the new table and the pair
`(created, duplicate)`. `created_at` is the caller-visible model of
`utc_now_iso()`. -/
def insert_message (store : List Row) (message_id from_msisdn to_msisdn ts : String)
    (text : Option String) (created_at : String) : List Row × Bool × Bool :=
  if store.any (fun r => r.message_id == message_id) then (store, false, true)
  else
    (store ++ [Row.mk message_id from_msisdn to_msisdn ts text created_at],
     true, false)

/-- The `from_msisdn = ?` clause of `_build_filters`: present only when the
parameter is truthy (neither `None` nor the empty string). -/
def fromClause (fromF : Option String) (r : Row) : Bool :=
  match fromF with
  | some f => if f = "" then true else r.from_msisdn == f
  | none => true

/-- The `ts >= ?` clause of `_build_filters` (SQLite `TEXT` comparison),
present only when the parameter is truthy. -/
def sinceClause (sinceF : Option String) (r : Row) : Bool :=
  match sinceF with
  | some t => if t = "" then true else leStr t r.ts
  | none => true

/-- The `LOWER(COALESCE(text, '')) LIKE '%' || lower(q) || '%'` clause of
`_build_filters`, present only when the parameter is truthy. The code
interpolates `q.lower()` into the pattern unescaped, so `%` and `_` inside
`q` act as `LIKE` wildcards. -/
def qClause (qF : Option String) (r : Row) : Bool :=
  match qF with
  | some q =>
    if q = "" then true
    else likeM (likePattern q) ((textOrEmpty r.text).data.map asciiLower)
  | none => true

/-- Semantic model of `_build_filters` from `app/storage.py`: the row
predicate of the `WHERE` clause it assembles (the clauses are
AND-combined). -/
def matchesFilters (fromF sinceF qF : Option String) (r : Row) : Bool :=
  fromClause fromF r && sinceClause sinceF r && qClause qF r

/-- `count_messages` from `app/storage.py`:
`SELECT COUNT(*) FROM messages WHERE ...`. -/
def count_messages (store : List Row) (fromF sinceF qF : Option String) : Nat :=
  (store.filter (matchesFilters fromF sinceF qF)).length

/-- The `ORDER BY ts ASC, message_id ASC` comparison as a Boolean
relation. -/
def rowLe (a b : Row) : Bool :=
  ltCL a.ts.data b.ts.data ||
  (decide (a.ts = b.ts) && leCL a.message_id.data b.message_id.data)

/-- The `ORDER BY ts ASC, message_id ASC` comparison as a relation. -/
def rowR (a b : Row) : Prop := rowLe a b = true

instance : DecidableRel rowR := fun a b => by unfold rowR; infer_instance

/-- `ORDER BY ts ASC, message_id ASC` over a result set. -/
def sortRows (l : List Row) : List Row := List.insertionSort rowR l

/-- `fetch_messages` from `app/storage.py`:
`SELECT ... WHERE ... ORDER BY ts ASC, message_id ASC LIMIT ? OFFSET ?`. -/
def fetch_messages (store : List Row) (fromF sinceF qF : Option String)
    (limit offset : Nat) : List Row :=
  ((sortRows (store.filter (matchesFilters fromF sinceF qF))).drop offset).take limit

/-- First-appearance deduplication, with an explicit seen-accumulator. -/
def dedupAux : List String → List String → List String
  | [], _ => []
  | x :: xs, seen =>
    if seen.contains x then dedupAux xs seen else x :: dedupAux xs (x :: seen)

/-- The distinct `from_msisdn` values of the table in first-appearance
order. -/
def dedupFirst (l : List String) : List String := dedupAux l []

/-- `COUNT(*)` for one sender. -/
def countSender (store : List Row) (s : String) : Nat :=
  (store.filter (fun r => r.from_msisdn == s)).length

/-- The `GROUP BY from_msisdn` result: each distinct sender with its
message count, in first-appearance order of the sender. -/
def senderCounts (store : List Row) : List (String × Nat) :=
  (dedupFirst (store.map Row.from_msisdn)).map (fun s => (s, countSender store s))

/-- The comparison of `ORDER BY cnt DESC` on the grouped rows: count
descending and nothing else. -/
def cntDescR (a b : String × Nat) : Prop := b.2 ≤ a.2

instance : DecidableRel cntDescR := fun a b => by unfold cntDescR; infer_instance

/-- The result shape of `get_stats` in `app/storage.py`. -/
structure StatsResult where
  total_messages : Nat
  senders_count : Nat
  messages_per_sender : List (String × Nat)
  first_message_ts : Option String
  last_message_ts : Option String
deriving Repr, DecidableEq

/-- `get_stats` from `app/storage.py`. The top-senders query is
`GROUP BY from_msisdn ORDER BY cnt DESC LIMIT 10`: its `ORDER BY` key is
the count alone, with no tie-break column, and SQLite leaves the relative
order of rows that compare equal under `ORDER BY` unspecified. The
embedding realizes one order SQLite may produce: a stable sort by count
descending over the groups in first-appearance order. The first/last
timestamp queries order by `(ts, message_id)` ascending respectively
descending, i.e. the two ends of `sortRows`. -/
def get_stats (store : List Row) : StatsResult :=
  StatsResult.mk
    store.length
    (dedupFirst (store.map Row.from_msisdn)).length
    ((List.insertionSort cntDescR (senderCounts store)).take 10)
    ((sortRows store).head?.map Row.ts)
    ((sortRows store).getLast?.map Row.ts)

/-! ## Webhook handler (`app/main.py`) -/

/-- The result, as seen on the wire, of one decoded webhook body: each of
the five JSON fields either absent or present with a string value (the
service's wire format; non-string JSON values are outside this embedding's
scope). `from_` models the `from` key, as in the code's alias. -/
structure JsonPayload where
  message_id : Option String
  from_ : Option String
  to_ : Option String
  ts : Option String
  text : Option String
deriving Repr, DecidableEq

/-- The validated `WebhookMessage` model from `app/main.py`. -/
structure WebhookMessage where
  message_id : String
  from_ : String
  to_ : String
  ts : String
  text : Option String
deriving Repr, DecidableEq

/-- Pydantic construction `WebhookMessage(**payload)`: `message_id`, `from`,
`to` and `ts` are required, `message_id` has `min_length=1`, and `text` is
optional with `max_length=4096`. -/
def WebhookMessage.fromPayload (p : JsonPayload) : Except String WebhookMessage :=
  match p.message_id, p.from_, p.to_, p.ts, p.text with
  | some mid, some f, some t, some ts, some tx =>
    if mid.data.length < 1 then Except.error "message_id: min_length 1"
    else if 4096 < tx.data.length then Except.error "text: max_length 4096"
    else Except.ok (WebhookMessage.mk mid f t ts (some tx))
  | some mid, some f, some t, some ts, none =>
    if mid.data.length < 1 then Except.error "message_id: min_length 1"
    else Except.ok (WebhookMessage.mk mid f t ts none)
  | _, _, _, _, _ => Except.error "field required"

/-- `WebhookMessage.validate_fields` from `app/main.py`, in source order:
`from` against the E.164 regex, `to` against the E.164 regex, `ts` must end
with `Z`, and `ts.replace("Z", "+00:00")` must parse with
`datetime.fromisoformat`. -/
def WebhookMessage.validate_fields (m : WebhookMessage) : Except String Unit :=
  if !E164_match m.from_ then Except.error "Invalid from number"
  else if !E164_match m.to_ then Except.error "Invalid to number"
  else if !lastZ m.ts then Except.error "ts must end with Z"
  else if !fromisoL (replaceZ m.ts.data) then Except.error "Invalid ts format"
  else Except.ok ()

/-- The construction-then-validation sequence the webhook handler runs:
`msg = WebhookMessage(**payload); msg.validate_fields()`. -/
def validatePayload (p : JsonPayload) : Except String WebhookMessage :=
  match WebhookMessage.fromPayload p with
  | Except.error e => Except.error e
  | Except.ok m =>
    match m.validate_fields with
    | Except.error e => Except.error e
    | Except.ok _ => Except.ok m

/-- The webhook endpoint's HTTP outcomes: 503 with
"webhook secret not configured", 401 with "invalid signature", 422 with a
validation detail, or 200 with the body `\x7b"status": "ok"\x7d`. -/
inductive HttpResponse where
  | serviceUnavailable : HttpResponse
  | unauthorized : HttpResponse
  | validationError : String → HttpResponse
  | okStatus : HttpResponse
deriving Repr, DecidableEq

/-- The `POST /webhook` handler from `app/main.py`. Inputs: the configured
secret, the `X-Signature` header (the empty string when the header is
absent, FastAPI's configured default), the raw body bytes, the decoded JSON
body (`none` models a body `request.json()` cannot parse), the current
timestamp for `created_at`, and the store. Returns the response and the
new store. -/
def webhook (secret x_signature : String) (raw_body : List Nat)
    (payload : Option JsonPayload) (now : String) (store : List Row) :
    HttpResponse × List Row :=
  if secret = "" then (HttpResponse.serviceUnavailable, store)
  else if x_signature = "" ∨ x_signature ≠ compute_signature secret raw_body then
    (HttpResponse.unauthorized, store)
  else
    match payload with
    | none => (HttpResponse.validationError "invalid json", store)
    | some p =>
      match validatePayload p with
      | Except.error e => (HttpResponse.validationError e, store)
      | Except.ok m =>
        (HttpResponse.okStatus,
         (insert_message store m.message_id m.from_ m.to_ m.ts m.text now).1)

/-! ## Messages endpoint (`app/main.py`) -/

/-- The `from` query-parameter normalization in `get_messages`: a truthy
value is stripped of surrounding whitespace; if the stripped value is
non-empty, does not start with `+` and its first character is a digit, a
`+` is prepended. -/
def normalizeFrom : Option String → Option String
  | none => none
  | some s =>
    if s = "" then some s
    else
      if pyStrip s ≠ "" ∧ startsPlus (pyStrip s) = false ∧ firstDigit (pyStrip s) = true
      then some ("+" ++ pyStrip s)
      else some (pyStrip s)

/-- The `GET /messages` outcomes: a 422 with a detail string, or a 200
envelope with the data rows, the total match count and the echoed
`limit`/`offset`. -/
inductive MessagesResult where
  | error422 : String → MessagesResult
  | ok : List Row → Nat → Int → Int → MessagesResult
deriving Repr, DecidableEq

/-- The `GET /messages` handler from `app/main.py`, after FastAPI has
supplied integer `limit`/`offset` (defaults handled by
`get_messages_req`). -/
def get_messages (store : List Row) (limit offset : Int)
    (fromQ sinceQ qQ : Option String) : MessagesResult :=
  if limit < 1 then MessagesResult.error422 "limit must be >= 1"
  else if 100 < limit then MessagesResult.error422 "limit must be <= 100"
  else if offset < 0 then MessagesResult.error422 "offset must be >= 0"
  else
    MessagesResult.ok
      (fetch_messages store (normalizeFrom fromQ) sinceQ qQ limit.toNat offset.toNat)
      (count_messages store (normalizeFrom fromQ) sinceQ qQ)
      limit offset

/-- `GET /messages` at the request boundary: an absent `limit` defaults to
50 and an absent `offset` to 0 (the handler signature's defaults). -/
def get_messages_req (store : List Row) (limitQ offsetQ : Option Int)
    (fromQ sinceQ qQ : Option String) : MessagesResult :=
  get_messages store (limitQ.getD 50) (offsetQ.getD 0) fromQ sinceQ qQ

/-! ## Specification-side definitions

These definitions follow the specification's wording (not the code) and
exist to be compared against the embedded code above. -/

/-- The validation acceptance exactly as the claim words it: `message_id`
non-empty, `from` and `to` of the exact E.164 shape, `ts` ending in `Z`
and parsing as ISO-8601 with the trailing `Z` read as a UTC offset, and
`text`, when present, at most 4096 characters. -/
def specValidB (p : JsonPayload) : Bool :=
  match p.message_id, p.from_, p.to_, p.ts, p.text with
  | some mid, some f, some t, some ts, some tx =>
    decide (1 ≤ mid.data.length) && specE164 f && specE164 t &&
    (lastZ ts && fromisoL (ts.data.dropLast ++ ['+', '0', '0', ':', '0', '0'])) &&
    decide (tx.data.length ≤ 4096)
  | some mid, some f, some t, some ts, none =>
    decide (1 ≤ mid.data.length) && specE164 f && specE164 t &&
    (lastZ ts && fromisoL (ts.data.dropLast ++ ['+', '0', '0', ':', '0', '0']))
  | _, _, _, _, _ => false

/-- The validation acceptance the code implements, in the specification's
vocabulary: as `specValidB`, but `from` and `to` may additionally carry one
trailing newline (Python's `$` anchor). -/
def amendedValidB (p : JsonPayload) : Bool :=
  match p.message_id, p.from_, p.to_, p.ts, p.text with
  | some mid, some f, some t, some ts, some tx =>
    decide (1 ≤ mid.data.length) && E164amended f && E164amended t &&
    (lastZ ts && fromisoL (ts.data.dropLast ++ ['+', '0', '0', ':', '0', '0'])) &&
    decide (tx.data.length ≤ 4096)
  | some mid, some f, some t, some ts, none =>
    decide (1 ≤ mid.data.length) && E164amended f && E164amended t &&
    (lastZ ts && fromisoL (ts.data.dropLast ++ ['+', '0', '0', ':', '0', '0']))
  | _, _, _, _, _ => false

/-- The `from`-parameter transformation exactly as the claim words it:
prepend `+` when the first character is a digit and the value does not
already start with `+`; otherwise leave the value unchanged. -/
def specNormalizeFrom (s : String) : String :=
  if startsPlus s = false ∧ firstDigit s = true then "+" ++ s else s

/-- The `from`-parameter transformation the code applies to a truthy value,
in the specification's vocabulary: strip surrounding whitespace first, then
prepend `+` when the stripped value is non-empty, does not start with `+`
and begins with a digit. -/
def amendedNormalizeFrom (s : String) : String :=
  if pyStrip s ≠ "" ∧ startsPlus (pyStrip s) = false ∧ firstDigit (pyStrip s) = true
  then "+" ++ pyStrip s
  else pyStrip s

/-- The two-key strict order "ts ascending, ties broken by message_id
ascending" that the claims require of listings. -/
def strictRowLt (a b : Row) : Prop :=
  ltCL a.ts.data b.ts.data = true ∨
  (a.ts = b.ts ∧ ltCL a.message_id.data b.message_id.data = true)

instance : DecidableRel strictRowLt := fun a b => by unfold strictRowLt; infer_instance

/-! ## Concrete fixtures used by witnesses and counterexamples -/

/-- A stored sample message (mirrors the test suite's `m1`). -/
def sampleRow1 : Row :=
  Row.mk "m1" "+919876543210" "+14155550100" "2025-01-15T10:00:00Z"
    (some "Hello world") "2025-01-15T10:00:01Z"

/-- A second stored sample message. -/
def sampleRow2 : Row :=
  Row.mk "m2" "+919876543210" "+14155550100" "2025-01-15T10:01:00Z"
    (some "Second message") "2025-01-15T10:01:01Z"

/-- A two-row sample store. -/
def sampleStore : List Row := [sampleRow1, sampleRow2]

/-- A well-formed webhook payload carrying the id `m1`. -/
def samplePayload : JsonPayload :=
  JsonPayload.mk (some "m1") (some "+919876543210") (some "+14155550100")
    (some "2025-01-15T10:00:00Z") (some "Hello world")

/-- The message `samplePayload` validates to. -/
def sampleMsg : WebhookMessage :=
  WebhookMessage.mk "m1" "+919876543210" "+14155550100" "2025-01-15T10:00:00Z"
    (some "Hello world")

/-- A payload whose `from` lacks the leading `+` (must fail validation). -/
def badPayload : JsonPayload :=
  JsonPayload.mk (some "bad1") (some "919876543210") (some "+14155550100")
    (some "2025-01-15T10:10:00Z") (some "bad payload")

/-- A payload whose `from` carries one trailing newline after a valid E.164
number: Python's `$` anchor lets the code's regex accept it. -/
def newlinePayload : JsonPayload :=
  JsonPayload.mk (some "nl1") (some "+91123456789\x0a") (some "+14155550100")
    (some "2025-01-15T10:00:00Z") none

/-- A stored row whose text is `"abc"` (for the `LIKE` wildcard
counterexample). -/
def textRow : Row :=
  Row.mk "t1" "+919876543210" "+14155550100" "2025-01-15T10:00:00Z"
    (some "abc") "2025-01-15T10:00:01Z"

/-- Tie store for the stats ranking: two senders with one message each, the
greater sender inserted first. -/
def tieStore : List Row :=
  [Row.mk "a" "+92222222222" "+14155550100" "2025-01-15T10:00:00Z" none "c",
   Row.mk "b" "+91111111111" "+14155550100" "2025-01-15T10:01:00Z" none "c"]

/-! ## Order-theoretic facts about the embedded comparisons -/

theorem strData_inj (s t : String) (h : s.data = t.data) : s = t := by
  cases s; cases t; exact congrArg String.mk h

theorem leCL_refl (a : List Char) : leCL a a = true := by
  induction a with
  | nil => rfl
  | cons x xs ih => simp [leCL, ih]

theorem leCL_trans (a b c : List Char) (hab : leCL a b = true)
    (hbc : leCL b c = true) : leCL a c = true := by
  induction a generalizing b c with
  | nil => simp [leCL]
  | cons x xs ih =>
    cases b with
    | nil => simp [leCL] at hab
    | cons y ys =>
      cases c with
      | nil => simp [leCL] at hbc
      | cons z zs =>
        simp only [leCL, Bool.or_eq_true, Bool.and_eq_true, decide_eq_true_eq] at hab hbc ⊢
        rcases hab with h1 | ⟨he1, h1⟩
        · rcases hbc with h2 | ⟨he2, h2⟩
          · exact Or.inl (h1.trans h2)
          · exact Or.inl (he2 ▸ h1)
        · rcases hbc with h2 | ⟨he2, h2⟩
          · exact Or.inl (he1 ▸ h2)
          · exact Or.inr ⟨he1.trans he2, ih ys zs h1 h2⟩

theorem ltCL_trans (a b c : List Char) (hab : ltCL a b = true)
    (hbc : ltCL b c = true) : ltCL a c = true := by
  induction a generalizing b c with
  | nil =>
    cases b with
    | nil => simp [ltCL] at hab
    | cons y ys => cases c with
      | nil => simp [ltCL] at hbc
      | cons z zs => simp [ltCL]
  | cons x xs ih =>
    cases b with
    | nil => simp [ltCL] at hab
    | cons y ys =>
      cases c with
      | nil => simp [ltCL] at hbc
      | cons z zs =>
        simp only [ltCL, Bool.or_eq_true, Bool.and_eq_true, decide_eq_true_eq] at hab hbc ⊢
        rcases hab with h1 | ⟨he1, h1⟩
        · rcases hbc with h2 | ⟨he2, h2⟩
          · exact Or.inl (h1.trans h2)
          · exact Or.inl (he2 ▸ h1)
        · rcases hbc with h2 | ⟨he2, h2⟩
          · exact Or.inl (he1 ▸ h2)
          · exact Or.inr ⟨he1.trans he2, ih ys zs h1 h2⟩

theorem ltCL_trichotomy (a b : List Char) :
    ltCL a b = true ∨ a = b ∨ ltCL b a = true := by
  induction a generalizing b with
  | nil => cases b <;> simp [ltCL]
  | cons x xs ih =>
    cases b with
    | nil => simp [ltCL]
    | cons y ys =>
      simp only [ltCL, Bool.or_eq_true, Bool.and_eq_true, decide_eq_true_eq]
      rcases lt_trichotomy x y with h | h | h
      · exact Or.inl (Or.inl h)
      · rcases ih ys with h2 | h2 | h2
        · exact Or.inl (Or.inr ⟨h, h2⟩)
        · exact Or.inr (Or.inl (by rw [h, h2]))
        · exact Or.inr (Or.inr (Or.inr ⟨h.symm, h2⟩))
      · exact Or.inr (Or.inr (Or.inl h))

theorem ltCL_iff_le_ne (a b : List Char) :
    ltCL a b = true ↔ (leCL a b = true ∧ a ≠ b) := by
  induction a generalizing b with
  | nil =>
    cases b with
    | nil => simp [ltCL, leCL]
    | cons y ys => simp [ltCL, leCL]
  | cons x xs ih =>
    cases b with
    | nil => simp [ltCL, leCL]
    | cons y ys =>
      simp only [ltCL, leCL, Bool.or_eq_true, Bool.and_eq_true, decide_eq_true_eq]
      constructor
      · rintro (h | ⟨he, h⟩)
        · exact ⟨Or.inl h, by simp [ne_of_lt h]⟩
        · rcases (ih ys).mp h with ⟨h1, h2⟩
          exact ⟨Or.inr ⟨he, h1⟩, by simp [he, h2]⟩
      · rintro ⟨h | ⟨he, h⟩, hne⟩
        · exact Or.inl h
        · refine Or.inr ⟨he, (ih ys).mpr ⟨h, ?_⟩⟩
          intro hys
          exact hne (by rw [he, hys])

theorem leCL_of_lt (a b : List Char) (h : ltCL a b = true) : leCL a b = true :=
  ((ltCL_iff_le_ne a b).mp h).1

theorem leCL_total (a b : List Char) : leCL a b = true ∨ leCL b a = true := by
  rcases ltCL_trichotomy a b with h | h | h
  · exact Or.inl (leCL_of_lt a b h)
  · exact Or.inl (h ▸ leCL_refl a)
  · exact Or.inr (leCL_of_lt b a h)

theorem rowR_total (a b : Row) : rowR a b ∨ rowR b a := by
  unfold rowR rowLe
  rcases ltCL_trichotomy a.ts.data b.ts.data with h | h | h
  · exact Or.inl (by simp [h])
  · have hts : a.ts = b.ts := strData_inj _ _ h
    rcases leCL_total a.message_id.data b.message_id.data with h2 | h2
    · exact Or.inl (by simp [hts, h2])
    · exact Or.inr (by simp [hts, h2])
  · exact Or.inr (by simp [h])

theorem rowR_trans (a b c : Row) (hab : rowR a b) (hbc : rowR b c) : rowR a c := by
  unfold rowR rowLe at hab hbc ⊢
  simp only [Bool.or_eq_true, Bool.and_eq_true, decide_eq_true_eq] at hab hbc ⊢
  rcases hab with h1 | ⟨he1, h1⟩
  · rcases hbc with h2 | ⟨he2, h2⟩
    · exact Or.inl (ltCL_trans _ _ _ h1 h2)
    · exact Or.inl (he2 ▸ h1)
  · rcases hbc with h2 | ⟨he2, h2⟩
    · exact Or.inl (he1 ▸ h2)
    · exact Or.inr ⟨he1.trans he2, leCL_trans _ _ _ h1 h2⟩

theorem rowLe_ne_strict (a b : Row) (h : rowLe a b = true)
    (hne : a.message_id ≠ b.message_id) : strictRowLt a b := by
  unfold rowLe at h
  simp only [Bool.or_eq_true, Bool.and_eq_true, decide_eq_true_eq] at h
  rcases h with h | ⟨he, h⟩
  · exact Or.inl h
  · refine Or.inr ⟨he, (ltCL_iff_le_ne _ _).mpr ⟨h, ?_⟩⟩
    intro hdata
    exact hne (strData_inj _ _ hdata)

/-! ## Facts about `sortRows` (the `ORDER BY ts, message_id` model) -/

theorem sortRows_perm (l : List Row) : List.Perm (sortRows l) l :=
  List.perm_insertionSort rowR l

theorem sortRows_sorted (l : List Row) : (sortRows l).Pairwise rowR := by
  haveI : IsTotal Row rowR := ⟨rowR_total⟩
  haveI : IsTrans Row rowR := ⟨rowR_trans⟩
  exact List.sorted_insertionSort rowR l

theorem sortRows_pairwise_ne (l : List Row)
    (h : (l.map Row.message_id).Nodup) :
    (sortRows l).Pairwise (fun a b => a.message_id ≠ b.message_id) := by
  have hperm : List.Perm ((sortRows l).map Row.message_id) (l.map Row.message_id) :=
    (sortRows_perm l).map Row.message_id
  have hnd : ((sortRows l).map Row.message_id).Nodup := hperm.nodup_iff.mpr h
  exact List.pairwise_map.mp hnd

theorem sortRows_pairwise_strict (l : List Row)
    (h : (l.map Row.message_id).Nodup) :
    (sortRows l).Pairwise strictRowLt :=
  ((sortRows_sorted l).and (sortRows_pairwise_ne l h)).imp
    (fun hab => rowLe_ne_strict _ _ hab.1 hab.2)

/-! ## Length of the hex HMAC digest -/

theorem hexChars_length (bs : List Nat) : (hexChars bs).length = 2 * bs.length := by
  induction bs with
  | nil => rfl
  | cons b bs ih =>
    simp only [hexChars, List.foldr_cons, List.length_cons] at *
    omega

theorem sha256_length (msg : List Nat) : (sha256 msg).length = 32 := by
  simp [sha256, wordBytes]

theorem compute_signature_data_length (secret : String) (raw : List Nat) :
    (compute_signature secret raw).data.length = 64 := by
  show (hexChars (hmacSha256 (utf8Bytes secret) raw)).length = 64
  rw [hexChars_length]
  have h32 : (hmacSha256 (utf8Bytes secret) raw).length = 32 := sha256_length _
  omega

theorem compute_signature_ne (secret : String) (raw : List Nat) :
    compute_signature secret raw ≠ "" := by
  intro h
  have hlen : (compute_signature secret raw).data.length = ("" : String).data.length := by
    rw [h]
  rw [compute_signature_data_length] at hlen
  exact absurd hlen (by decide)

theorem ne_compute_signature_of_short (s secret : String) (raw : List Nat)
    (h : s.data.length ≠ 64) : s ≠ compute_signature secret raw := by
  intro he
  exact h (by rw [he]; exact compute_signature_data_length secret raw)

/-! ## Claims -/

/-- Claim C1: for every store state and every validated payload, inserting
under an already-present `message_id` leaves the store (hence every field
of the existing row) unchanged and reports `duplicate`; inserting under a
fresh `message_id` appends exactly one row and reports `created`; and the
webhook handler answers 200 `\x7b"status": "ok"\x7d` (`HttpResponse.okStatus`)
in both cases. -/
theorem C1_idempotent_insert_ack
    (store : List Row) (mid f t ts : String) (tx : Option String) (now : String) :
    ((∃ r ∈ store, r.message_id = mid) →
      insert_message store mid f t ts tx now = (store, false, true)) ∧
    ((¬ ∃ r ∈ store, r.message_id = mid) →
      insert_message store mid f t ts tx now
        = (store ++ [Row.mk mid f t ts tx now], true, false)) ∧
    (∀ (secret : String) (raw : List Nat) (p : JsonPayload) (m : WebhookMessage),
      secret ≠ "" → validatePayload p = Except.ok m →
      webhook secret (compute_signature secret raw) raw (some p) now store
        = (HttpResponse.okStatus,
           (insert_message store m.message_id m.from_ m.to_ m.ts m.text now).1)) := by
  refine ⟨?_, ?_, ?_⟩
  · intro h
    have hc : store.any (fun r => r.message_id == mid) = true := by
      rw [List.any_eq_true]
      obtain ⟨r, hr, he⟩ := h
      exact ⟨r, hr, by simp [he]⟩
    simp [insert_message, hc]
  · intro h
    have hc : store.any (fun r => r.message_id == mid) = false := by
      rw [Bool.eq_false_iff]
      intro hany
      rw [List.any_eq_true] at hany
      obtain ⟨r, hr, he⟩ := hany
      exact h ⟨r, hr, by simpa using he⟩
    simp [insert_message, hc]
  · intro secret raw p m hsec hval
    simp [webhook, hsec, compute_signature_ne secret raw, hval]

/-- Witness for C1 at a concrete store and payload: a duplicate insert of
`m1`, a fresh insert of `m9`, and the webhook acknowledgment. -/
theorem C1_witness :
    insert_message sampleStore "m1" "+919876543210" "+14155550100"
        "2025-01-15T10:00:00Z" (some "Hello world") "now"
      = (sampleStore, false, true) ∧
    insert_message sampleStore "m9" "+919876543210" "+14155550100"
        "2025-01-15T10:02:00Z" none "now"
      = (sampleStore ++
          [Row.mk "m9" "+919876543210" "+14155550100" "2025-01-15T10:02:00Z" none "now"],
         true, false) ∧
    webhook "testsecret" (compute_signature "testsecret" []) [] (some samplePayload)
        "now" sampleStore
      = (HttpResponse.okStatus,
         (insert_message sampleStore sampleMsg.message_id sampleMsg.from_
            sampleMsg.to_ sampleMsg.ts sampleMsg.text "now").1) :=
  ⟨(C1_idempotent_insert_ack sampleStore "m1" "+919876543210" "+14155550100"
      "2025-01-15T10:00:00Z" (some "Hello world") "now").1
      ⟨sampleRow1, by decide, by decide⟩,
   (C1_idempotent_insert_ack sampleStore "m9" "+919876543210" "+14155550100"
      "2025-01-15T10:02:00Z" none "now").2.1 (by decide),
   (C1_idempotent_insert_ack sampleStore "" "" "" "" none "now").2.2
      "testsecret" [] samplePayload sampleMsg (by decide) rfl⟩

/-- Claim C4: with an unconfigured (empty) secret every webhook call fails
with 503 `serviceUnavailable`, whatever the request; with a configured
secret, a missing `X-Signature` header (modelled as the empty default) or
any header value differing from the hex HMAC-SHA256 of the raw body under
the secret fails with 401 `unauthorized`, and the store is unchanged in all
these cases. -/
theorem C4_webhook_auth
    (secret xsig : String) (raw : List Nat) (payload : Option JsonPayload)
    (now : String) (store : List Row) :
    (secret = "" →
      webhook secret xsig raw payload now store
        = (HttpResponse.serviceUnavailable, store)) ∧
    (secret ≠ "" → xsig ≠ compute_signature secret raw →
      webhook secret xsig raw payload now store
        = (HttpResponse.unauthorized, store)) ∧
    (secret ≠ "" →
      webhook secret "" raw payload now store
        = (HttpResponse.unauthorized, store)) := by
  refine ⟨?_, ?_, ?_⟩
  · intro h
    simp [webhook, h]
  · intro hsec hne
    have hcond : xsig = "" ∨ xsig ≠ compute_signature secret raw := Or.inr hne
    simp [webhook, hsec, hcond]
  · intro hsec
    have hcond : ("" : String) = "" ∨ ("" : String) ≠ compute_signature secret raw :=
      Or.inl rfl
    simp [webhook, hsec, hcond]

/-- Witness for C4: the three authentication outcomes at concrete inputs
(the mismatching header `"x"` is shorter than any hex digest). -/
theorem C4_witness :
    webhook "" "x" [] none "now" [] = (HttpResponse.serviceUnavailable, []) ∧
    webhook "k" "x" [] none "now" [] = (HttpResponse.unauthorized, []) ∧
    webhook "k" "" [] none "now" [] = (HttpResponse.unauthorized, []) :=
  ⟨(C4_webhook_auth "" "x" [] none "now" []).1 rfl,
   (C4_webhook_auth "k" "x" [] none "now" []).2.1 (by decide)
     (ne_compute_signature_of_short "x" "k" [] (by decide)),
   (C4_webhook_auth "k" "" [] none "now" []).2.2 (by decide)⟩

/-- Claim C2: under any filter combination, the record list of
`GET /messages` is sorted strictly by `ts` ascending with ties broken by
`message_id` ascending, and consequently `limit=1&offset=0` and
`limit=1&offset=1` against the same store never return the same
`message_id`. The hypothesis is the table's `PRIMARY KEY (message_id)`
invariant. -/
theorem C2_listing_order (store : List Row) (f s q : Option String)
    (limit offset : Nat) (h : (store.map Row.message_id).Nodup) :
    (fetch_messages store f s q limit offset).Pairwise strictRowLt ∧
    (∀ a ∈ fetch_messages store f s q 1 0, ∀ b ∈ fetch_messages store f s q 1 1,
      a.message_id ≠ b.message_id) := by
  have hsubl : ((store.filter (matchesFilters f s q)).map Row.message_id).Sublist
      (store.map Row.message_id) := (List.filter_sublist store).map Row.message_id
  have hndF : ((store.filter (matchesFilters f s q)).map Row.message_id).Nodup :=
    h.sublist hsubl
  have hstrict := sortRows_pairwise_strict _ hndF
  have hne := sortRows_pairwise_ne _ hndF
  constructor
  · have hsub2 : ((((sortRows (store.filter (matchesFilters f s q)))).drop offset).take limit).Sublist
        (sortRows (store.filter (matchesFilters f s q))) :=
      (List.take_sublist _ _).trans (List.drop_sublist _ _)
    exact hstrict.sublist hsub2
  · intro a ha b hb
    unfold fetch_messages at ha hb
    rw [List.drop_zero] at ha
    rcases hL : sortRows (store.filter (matchesFilters f s q)) with _ | ⟨x, tail⟩
    · rw [hL] at ha; simp at ha
    · rw [hL] at ha hb
      rcases tail with _ | ⟨y, tail2⟩
      · simp at hb
      · have hax : a = x := by
          simpa using ha
        have hby : b = y := by
          simpa using hb
        rw [hL] at hne
        have := (List.pairwise_cons.mp hne).1 y (by simp)
        rw [hax, hby]
        exact this

/-- Witness for C2 at a concrete two-row store. -/
theorem C2_witness :
    (sampleStore.map Row.message_id).Nodup ∧
    ((fetch_messages sampleStore none none none 50 0).Pairwise strictRowLt ∧
     (∀ a ∈ fetch_messages sampleStore none none none 1 0,
      ∀ b ∈ fetch_messages sampleStore none none none 1 1,
        a.message_id ≠ b.message_id)) :=
  ⟨by decide, C2_listing_order sampleStore none none none 50 0 (by decide)⟩

/-! ## Empty-parameter behaviour of the filter layer -/

theorem matchesFilters_from_empty (s q : Option String) :
    matchesFilters (some "") s q = matchesFilters none s q :=
  funext fun r => by simp [matchesFilters, fromClause]

theorem matchesFilters_since_empty (f q : Option String) :
    matchesFilters f (some "") q = matchesFilters f none q :=
  funext fun r => by simp [matchesFilters, sinceClause]

theorem matchesFilters_q_empty (f s : Option String) :
    matchesFilters f s (some "") = matchesFilters f s none :=
  funext fun r => by simp [matchesFilters, qClause]

theorem pyStrip_all_space (w : String) (h : w.data.all isPySpace = true) :
    pyStrip w = "" := by
  unfold pyStrip
  have h1 : w.data.dropWhile isPySpace = [] := by
    rw [List.dropWhile_eq_nil_iff]
    exact fun x hx => (List.all_eq_true.mp h) x hx
  rw [h1]
  rfl

theorem normalizeFrom_all_space (w : String) (hne : w ≠ "")
    (h : w.data.all isPySpace = true) : normalizeFrom (some w) = some "" := by
  have hs := pyStrip_all_space w h
  simp only [normalizeFrom]
  rw [if_neg hne, if_neg (by rw [hs]; rintro ⟨h1, -, -⟩; exact h1 rfl), hs]

/-- Claim C8: `limit` defaults to 50 and `offset` to 0; the request fails
with 422 exactly when `limit < 1`, `limit > 100` or `offset < 0`; and a
successful response echoes the `limit` and `offset` used. -/
theorem C8_limit_offset_validation (store : List Row) (limit offset : Int)
    (f s q : Option String) :
    ((∃ d, get_messages store limit offset f s q = MessagesResult.error422 d) ↔
      (limit < 1 ∨ 100 < limit ∨ offset < 0)) ∧
    (1 ≤ limit → limit ≤ 100 → 0 ≤ offset →
      get_messages store limit offset f s q
        = MessagesResult.ok
            (fetch_messages store (normalizeFrom f) s q limit.toNat offset.toNat)
            (count_messages store (normalizeFrom f) s q) limit offset) ∧
    (get_messages_req store none none f s q = get_messages store 50 0 f s q) := by
  refine ⟨⟨?_, ?_⟩, ?_, rfl⟩
  · rintro ⟨d, hd⟩
    by_contra hno
    push_neg at hno
    obtain ⟨h1, h2, h3⟩ := hno
    unfold get_messages at hd
    rw [if_neg (by omega), if_neg (by omega), if_neg (by omega)] at hd
    exact MessagesResult.noConfusion hd
  · intro h
    by_cases h1 : limit < 1
    · exact ⟨"limit must be >= 1", by unfold get_messages; rw [if_pos h1]⟩
    · by_cases h2 : 100 < limit
      · exact ⟨"limit must be <= 100", by
          unfold get_messages; rw [if_neg h1, if_pos h2]⟩
      · rcases h with h | h | h
        · exact absurd h h1
        · exact absurd h h2
        · exact ⟨"offset must be >= 0", by
            unfold get_messages; rw [if_neg h1, if_neg h2, if_pos h]⟩
  · intro h1 h2 h3
    unfold get_messages
    rw [if_neg (by omega), if_neg (by omega), if_neg (by omega)]

/-- Witness for C8: `limit=0` is rejected and `limit=50, offset=0` echoes
back. -/
theorem C8_witness :
    (∃ d, get_messages sampleStore 0 0 none none none = MessagesResult.error422 d) ∧
    get_messages sampleStore 50 0 none none none
      = MessagesResult.ok
          (fetch_messages sampleStore (normalizeFrom none) none none
            (Int.toNat 50) (Int.toNat 0))
          (count_messages sampleStore (normalizeFrom none) none none) 50 0 :=
  ⟨(C8_limit_offset_validation sampleStore 0 0 none none none).1.mpr
      (Or.inl (by decide)),
   (C8_limit_offset_validation sampleStore 50 0 none none none).2.1
      (by decide) (by decide) (by decide)⟩

/-- Claim C9: the `total` field of `GET /messages` equals the number of
stored records satisfying the (normalized) filters, independent of `limit`
and `offset`, and equals the length of `data` whenever `offset = 0` and
`limit` is at least that number. -/
theorem C9_total_ignores_pagination (store : List Row) (f s q : Option String)
    (limit offset : Int) (h1 : 1 ≤ limit) (h2 : limit ≤ 100) (h3 : 0 ≤ offset) :
    get_messages store limit offset f s q
      = MessagesResult.ok
          (fetch_messages store (normalizeFrom f) s q limit.toNat offset.toNat)
          (count_messages store (normalizeFrom f) s q) limit offset ∧
    count_messages store (normalizeFrom f) s q
      = (store.filter (matchesFilters (normalizeFrom f) s q)).length ∧
    (offset = 0 → count_messages store (normalizeFrom f) s q ≤ limit.toNat →
      (fetch_messages store (normalizeFrom f) s q limit.toNat offset.toNat).length
        = count_messages store (normalizeFrom f) s q) := by
  refine ⟨?_, rfl, ?_⟩
  · unfold get_messages
    rw [if_neg (by omega), if_neg (by omega), if_neg (by omega)]
  · intro h0 hle
    subst h0
    unfold fetch_messages
    rw [show Int.toNat 0 = 0 from rfl, List.drop_zero, List.length_take]
    have hlen : (sortRows (store.filter (matchesFilters (normalizeFrom f) s q))).length
        = (store.filter (matchesFilters (normalizeFrom f) s q)).length :=
      (sortRows_perm _).length_eq
    unfold count_messages at hle ⊢
    omega

/-- Witness for C9 at a concrete store, `limit=50`, `offset=0`. -/
theorem C9_witness :
    get_messages sampleStore 50 0 none none none
      = MessagesResult.ok
          (fetch_messages sampleStore (normalizeFrom none) none none
            (Int.toNat 50) (Int.toNat 0))
          (count_messages sampleStore (normalizeFrom none) none none) 50 0 ∧
    count_messages sampleStore (normalizeFrom none) none none
      = (sampleStore.filter (matchesFilters (normalizeFrom none) none none)).length ∧
    ((0 : Int) = 0 → count_messages sampleStore (normalizeFrom none) none none ≤ Int.toNat 50 →
      (fetch_messages sampleStore (normalizeFrom none) none none
        (Int.toNat 50) (Int.toNat 0)).length
        = count_messages sampleStore (normalizeFrom none) none none) :=
  C9_total_ignores_pagination sampleStore none none none 50 0
    (by decide) (by decide) (by decide)

/-- Claim C10: `GET /messages` with `from`, `since` or `q` equal to the
empty string — or, for `from`, a whitespace-only string — behaves exactly
as if the parameter were omitted: the filter is not applied and no
validation error is raised. -/
theorem C10_empty_params_ignored (store : List Row) (limit offset : Int)
    (f s q : Option String) :
    (get_messages store limit offset (some "") s q
      = get_messages store limit offset none s q) ∧
    (∀ w : String, w ≠ "" → w.data.all isPySpace = true →
      get_messages store limit offset (some w) s q
        = get_messages store limit offset none s q) ∧
    (get_messages store limit offset f (some "") q
      = get_messages store limit offset f none q) ∧
    (get_messages store limit offset f s (some "")
      = get_messages store limit offset f s none) := by
  have hfrom : ∀ g : Option String, normalizeFrom g = some "" →
      (fetch_messages store (normalizeFrom g) s q limit.toNat offset.toNat
        = fetch_messages store (normalizeFrom none) s q limit.toNat offset.toNat) ∧
      (count_messages store (normalizeFrom g) s q
        = count_messages store (normalizeFrom none) s q) := by
    intro g hg
    unfold fetch_messages count_messages
    rw [hg, show normalizeFrom none = none from rfl, matchesFilters_from_empty]
    exact ⟨rfl, rfl⟩
  refine ⟨?_, ?_, ?_, ?_⟩
  · have hn : normalizeFrom (some "") = some "" := by simp [normalizeFrom]
    obtain ⟨he1, he2⟩ := hfrom (some "") hn
    unfold get_messages
    rw [he1, he2]
  · intro w hne hsp
    obtain ⟨he1, he2⟩ := hfrom (some w) (normalizeFrom_all_space w hne hsp)
    unfold get_messages
    rw [he1, he2]
  · unfold get_messages fetch_messages count_messages
    rw [matchesFilters_since_empty]
  · unfold get_messages fetch_messages count_messages
    rw [matchesFilters_q_empty]

/-- Witness for C10 with the whitespace-only value `" "`. -/
theorem C10_witness :
    get_messages sampleStore 50 0 (some " ") none none
      = get_messages sampleStore 50 0 none none none :=
  (C10_empty_params_ignored sampleStore 50 0 none none none).2.1 " "
    (by decide) (by decide)

/-- Claim C7 counterexample: for the value `" 123"` (leading space), the
claim predicts the unchanged value `" 123"` as the filter value (its first
character is not a digit), but the handler strips the whitespace first and
uses `"+123"`. -/
theorem C7_counterexample :
    normalizeFrom (some " 123") = some "+123" ∧
    specNormalizeFrom " 123" = " 123" ∧
    (" 123" : String) ≠ "+123" := by decide

/-- Claim C7 (amended): an absent or empty `from` value is passed through
unchanged; any other value is first stripped of surrounding whitespace, and
then a `+` is prepended exactly when the stripped value is non-empty, does
not already start with `+`, and its first character is a digit; otherwise
the stripped value itself is used for filtering. -/
theorem C7_from_normalization :
    normalizeFrom none = none ∧
    normalizeFrom (some "") = some "" ∧
    (∀ sv : String, sv ≠ "" →
      normalizeFrom (some sv) = some (amendedNormalizeFrom sv)) := by
  refine ⟨rfl, by simp [normalizeFrom], ?_⟩
  intro sv h
  simp only [normalizeFrom]
  rw [if_neg h]
  unfold amendedNormalizeFrom
  by_cases hc : pyStrip sv ≠ "" ∧ startsPlus (pyStrip sv) = false ∧
      firstDigit (pyStrip sv) = true
  · rw [if_pos hc, if_pos hc]
  · rw [if_neg hc, if_neg hc]

/-- Witness for C7 at the value `" 123"`. -/
theorem C7_witness :
    normalizeFrom (some " 123") = some (amendedNormalizeFrom " 123") :=
  C7_from_normalization.2.2 " 123" (by decide)

/-- Claim C3, evaluated at a failing input: with two senders holding one
message each, the top-senders ranking the code computes keeps the tied
senders in an order that is not ascending by `from_msisdn` (the query
orders by count only; the claimed tie-break is absent). -/
theorem C3_stats_tie_order :
    (get_stats tieStore).messages_per_sender
      = [("+92222222222", 1), ("+91111111111", 1)] ∧
    ltStr "+91111111111" "+92222222222" = true := by decide

/-- Claim C6 counterexample: with stored text `"abc"` and `q = "a_c"`, the
record is returned (the unescaped `_` acts as a `LIKE` wildcard) although
`"a_c"` is not a case-insensitive substring of `"abc"`, contradicting the
claim's "included exactly when q is a case-insensitive substring". -/
theorem C6_q_wildcard_counterexample :
    textRow ∈ fetch_messages [textRow] none none (some "a_c") 1 0 ∧
    ciSubstringB "a_c" (textOrEmpty textRow.text) = false := by decide

/-- Claim C6 (amended): a stored record appears in the unpaginated listing
exactly when it satisfies every provided filter, AND-combined; `since = T`
keeps exactly the records with `ts ≥ T` in lexicographic (SQLite `TEXT`)
order; and `q` keeps exactly the records whose lowered
`COALESCE(text, '')` matches the SQLite `LIKE` pattern `%q.lower()%`, where
`%` and `_` occurring in `q` act as wildcards (for `q` free of wildcard
characters this is the case-insensitive substring test). -/
theorem C6_filters_amended (store : List Row) (f s q : Option String) (r : Row) :
    (r ∈ fetch_messages store f s q store.length 0 ↔
      (r ∈ store ∧ fromClause f r = true ∧ sinceClause s r = true ∧
        qClause q r = true)) ∧
    (∀ T : String, T ≠ "" → sinceClause (some T) r = leStr T r.ts) ∧
    (∀ qs : String, qs ≠ "" →
      qClause (some qs) r
        = likeM (likePattern qs) ((textOrEmpty r.text).data.map asciiLower)) := by
  refine ⟨?_, ?_, ?_⟩
  · unfold fetch_messages
    rw [List.drop_zero, List.take_of_length_le]
    · rw [(sortRows_perm _).mem_iff, List.mem_filter]
      unfold matchesFilters
      simp [Bool.and_eq_true, and_assoc]
    · rw [(sortRows_perm _).length_eq]
      exact List.length_filter_le _ _
  · intro T h
    simp [sinceClause, h]
  · intro qs h
    simp [qClause, h]

/-- Witness for C6 at the wildcard query `"a_c"` over a one-row store. -/
theorem C6_witness :
    (textRow ∈ fetch_messages [textRow] none none (some "a_c")
        (List.length [textRow]) 0 ↔
      (textRow ∈ [textRow] ∧ fromClause none textRow = true ∧
        sinceClause none textRow = true ∧ qClause (some "a_c") textRow = true)) ∧
    sinceClause (some "2025") textRow = leStr "2025" textRow.ts ∧
    qClause (some "a_c") textRow
      = likeM (likePattern "a_c") ((textOrEmpty textRow.text).data.map asciiLower) :=
  ⟨(C6_filters_amended [textRow] none none (some "a_c") textRow).1,
   (C6_filters_amended [textRow] none none (some "a_c") textRow).2.1 "2025" (by decide),
   (C6_filters_amended [textRow] none none (some "a_c") textRow).2.2 "a_c" (by decide)⟩

/-! ## The E.164 regex versus its specification wording -/

theorem boolExt (a b : Bool) (h : a = true ↔ b = true) : a = b := by
  cases a <;> cases b <;> simp_all

theorem e164Tail_iff (cs : List Char) (n : Nat) :
    e164Tail cs n = true ↔
    ((cs.all isDigitC = true ∧ 7 ≤ n + cs.length ∧ n + cs.length ≤ 14) ∨
     (∃ ds : List Char, cs = ds ++ ['\n'] ∧ ds.all isDigitC = true ∧
       7 ≤ n + ds.length ∧ n + ds.length ≤ 14)) := by
  induction cs generalizing n with
  | nil =>
    simp only [e164Tail, Bool.and_eq_true, decide_eq_true_eq, List.all_nil,
      List.length_nil]
    constructor
    · rintro ⟨h1, h2⟩
      exact Or.inl ⟨by simp, by omega, by omega⟩
    · rintro (⟨-, h1, h2⟩ | ⟨ds, hds, -⟩)
      · exact ⟨by omega, by omega⟩
      · exact absurd hds (by simp)
  | cons c cs ih =>
    simp only [e164Tail, Bool.or_eq_true, Bool.and_eq_true, decide_eq_true_eq,
      List.isEmpty_iff, List.all_cons, List.length_cons]
    rw [ih]
    constructor
    · rintro (⟨⟨⟨hc, hcs⟩, h7⟩, h14⟩ | ⟨hd, hrec⟩)
      · subst hc; subst hcs
        exact Or.inr ⟨[], rfl, by simp, by simpa using h7, by simpa using h14⟩
      · rcases hrec with ⟨hall, h7, h14⟩ | ⟨ds, hds, hall, h7, h14⟩
        · exact Or.inl ⟨⟨hd, hall⟩, by omega, by omega⟩
        · refine Or.inr ⟨c :: ds, by rw [hds, List.cons_append], ?_, ?_, ?_⟩
          · simp [hd, hall]
          · simp only [List.length_cons]; omega
          · simp only [List.length_cons]; omega
    · rintro (⟨⟨hd, hall⟩, h7, h14⟩ | ⟨ds, hds, hall, h7, h14⟩)
      · exact Or.inr ⟨hd, Or.inl ⟨hall, by omega, by omega⟩⟩
      · cases ds with
        | nil =>
          simp only [List.nil_append] at hds
          have hc : c = '\n' := by injection hds
          have hcs : cs = [] := by injection hds
          simp only [List.length_nil] at h7 h14
          exact Or.inl ⟨⟨⟨hc, hcs⟩, by omega⟩, by omega⟩
        | cons d ds2 =>
          rw [List.cons_append] at hds
          have hc : c = d := by injection hds
          have hcs : cs = ds2 ++ ['\n'] := by injection hds
          simp only [List.all_cons, Bool.and_eq_true] at hall
          simp only [List.length_cons] at h7 h14
          exact Or.inr ⟨hc ▸ hall.1, Or.inr ⟨ds2, hcs, hall.2, by omega, by omega⟩⟩

theorem E164core_iff (cs : List Char) :
    E164core cs = true ↔
    (∃ d rest, cs = '+' :: d :: rest ∧ '1' ≤ d ∧ d ≤ '9' ∧
      e164Tail rest 0 = true) := by
  rcases cs with - | ⟨c, - | ⟨d, rest⟩⟩
  · simp [E164core]
  · simp [E164core]
  · simp only [E164core, Bool.and_eq_true, decide_eq_true_eq]
    constructor
    · rintro ⟨⟨⟨hc, h1⟩, h9⟩, ht⟩
      exact ⟨d, rest, by rw [hc], h1, h9, ht⟩
    · rintro ⟨d2, rest2, heq, h1, h9, ht⟩
      simp only [List.cons.injEq] at heq
      obtain ⟨hc, hd, hr⟩ := heq
      subst hd; subst hr
      exact ⟨⟨⟨hc, h1⟩, h9⟩, ht⟩

theorem specE164core_iff (cs : List Char) :
    specE164core cs = true ↔
    (∃ d rest, cs = '+' :: d :: rest ∧ '1' ≤ d ∧ d ≤ '9' ∧
      rest.all isDigitC = true ∧ 7 ≤ rest.length ∧ rest.length ≤ 14) := by
  rcases cs with - | ⟨c, - | ⟨d, rest⟩⟩
  · simp [specE164core]
  · simp [specE164core]
  · simp only [specE164core, Bool.and_eq_true, decide_eq_true_eq]
    constructor
    · rintro ⟨⟨⟨⟨⟨hc, h1⟩, h9⟩, ha⟩, h7⟩, h14⟩
      exact ⟨d, rest, by rw [hc], h1, h9, ha, h7, h14⟩
    · rintro ⟨d2, rest2, heq, h1, h9, ha, h7, h14⟩
      simp only [List.cons.injEq] at heq
      obtain ⟨hc, hd, hr⟩ := heq
      subst hd; subst hr
      exact ⟨⟨⟨⟨⟨hc, h1⟩, h9⟩, ha⟩, h7⟩, h14⟩

theorem E164core_eq_amended (cs : List Char) :
    E164core cs =
    (specE164core cs ||
     (decide (cs.getLast? = some '\n') && specE164core cs.dropLast)) := by
  apply boolExt
  rw [E164core_iff]
  simp only [Bool.or_eq_true, Bool.and_eq_true, decide_eq_true_eq, specE164core_iff]
  constructor
  · rintro ⟨d, rest, heq, h1, h9, ht⟩
    rcases (e164Tail_iff rest 0).mp ht with ⟨ha, h7, h14⟩ | ⟨ds, hds, ha, h7, h14⟩
    · exact Or.inl ⟨d, rest, heq, h1, h9, ha, by omega, by omega⟩
    · have hcs : cs = ('+' :: d :: ds) ++ ['\n'] := by
        rw [heq, hds]; rfl
      refine Or.inr ⟨?_, d, ds, ?_, h1, h9, ha, by omega, by omega⟩
      · rw [hcs, List.getLast?_concat]
      · rw [hcs, List.dropLast_concat]
  · rintro (⟨d, rest, heq, h1, h9, ha, h7, h14⟩ | ⟨hlast, d, rest2, hdrop, h1, h9, ha, h7, h14⟩)
    · refine ⟨d, rest, heq, h1, h9, (e164Tail_iff rest 0).mpr (Or.inl ⟨ha, by omega, by omega⟩)⟩
    · have hne : cs ≠ [] := by
        intro h
        rw [h] at hlast
        simp at hlast
      have hlasteq : cs.getLast hne = '\n' := by
        have h2 := List.getLast?_eq_getLast cs hne
        rw [h2] at hlast
        exact Option.some.inj hlast
      have hcs : cs = cs.dropLast ++ ['\n'] := by
        have h4 := List.dropLast_append_getLast hne
        rw [hlasteq] at h4
        exact h4.symm
      rw [hdrop] at hcs
      refine ⟨d, rest2 ++ ['\n'], by rw [hcs]; rfl, h1, h9,
        (e164Tail_iff _ 0).mpr (Or.inr ⟨rest2, rfl, ha, by omega, by omega⟩)⟩

/-! ## Character content of strings accepted by the ISO-8601 recognizer -/

theorem isDigitC_ne (c : Char) (h : isDigitC c = true) : c ≠ 'Z' ∧ c ≠ '+' := by
  simp only [isDigitC, Bool.and_eq_true, decide_eq_true_eq] at h
  constructor
  · rintro rfl
    exact absurd h.2 (by decide)
  · rintro rfl
    exact absurd h.1 (by decide)

theorem noZP_cons (x : Char) (l : List Char) (hx1 : x ≠ 'Z') (hx2 : x ≠ '+')
    (h : 'Z' ∉ l ∧ l.count '+' ≤ 1) : 'Z' ∉ x :: l ∧ (x :: l).count '+' ≤ 1 := by
  constructor
  · intro hmem
    rcases List.mem_cons.mp hmem with h1 | h1
    · exact hx1 h1.symm
    · exact h.1 h1
  · simp only [List.count_cons, beq_iff_eq]
    rw [if_neg hx2]
    have := h.2
    omega

theorem noZP_cons_digit (x : Char) (l : List Char) (hx : isDigitC x = true)
    (h : 'Z' ∉ l ∧ l.count '+' ≤ 1) : 'Z' ∉ x :: l ∧ (x :: l).count '+' ≤ 1 :=
  noZP_cons x l (isDigitC_ne x hx).1 (isDigitC_ne x hx).2 h

theorem noZPmem_cons (x : Char) (l : List Char) (hx1 : x ≠ 'Z') (hx2 : x ≠ '+')
    (h : 'Z' ∉ l ∧ '+' ∉ l) : 'Z' ∉ x :: l ∧ '+' ∉ x :: l := by
  constructor
  · intro hmem
    rcases List.mem_cons.mp hmem with h1 | h1
    · exact hx1 h1.symm
    · exact h.1 h1
  · intro hmem
    rcases List.mem_cons.mp hmem with h1 | h1
    · exact hx2 h1.symm
    · exact h.2 h1

theorem noZPmem_nil : 'Z' ∉ ([] : List Char) ∧ '+' ∉ ([] : List Char) :=
  ⟨List.not_mem_nil _, List.not_mem_nil _⟩

theorem read2_sound (cs : List Char) (n : Nat) (rest : List Char)
    (h : read2 cs = some (n, rest)) :
    ∃ a b, cs = a :: b :: rest ∧ isDigitC a = true ∧ isDigitC b = true := by
  rcases cs with - | ⟨a, - | ⟨b, rest2⟩⟩
  · exact absurd h (by simp [read2])
  · exact absurd h (by simp [read2])
  · simp only [read2] at h
    by_cases hd : (isDigitC a && isDigitC b) = true
    · rw [if_pos hd] at h
      have h2 := Option.some.inj h
      have hr : rest2 = rest := congrArg Prod.snd h2
      subst hr
      simp only [Bool.and_eq_true] at hd
      exact ⟨a, b, rfl, hd.1, hd.2⟩
    · rw [if_neg hd] at h
      exact absurd h (by simp)

theorem read4_sound (cs : List Char) (n : Nat) (rest : List Char)
    (h : read4 cs = some (n, rest)) :
    ∃ a b c d, cs = a :: b :: c :: d :: rest ∧ isDigitC a = true ∧
      isDigitC b = true ∧ isDigitC c = true ∧ isDigitC d = true := by
  rcases cs with - | ⟨a, - | ⟨b, - | ⟨c, - | ⟨d, rest2⟩⟩⟩⟩
  · exact absurd h (by simp [read4])
  · exact absurd h (by simp [read4])
  · exact absurd h (by simp [read4])
  · exact absurd h (by simp [read4])
  · simp only [read4] at h
    by_cases hd : (isDigitC a && isDigitC b && isDigitC c && isDigitC d) = true
    · rw [if_pos hd] at h
      have h2 := Option.some.inj h
      have hr : rest2 = rest := congrArg Prod.snd h2
      subst hr
      simp only [Bool.and_eq_true] at hd
      exact ⟨a, b, c, d, rfl, hd.1.1.1, hd.1.1.2, hd.1.2, hd.2⟩
    · rw [if_neg hd] at h
      exact absurd h (by simp)

theorem parseHM_ok (cs : List Char) (h : parseHM cs = true) :
    'Z' ∉ cs ∧ '+' ∉ cs := by
  unfold parseHM at h
  rcases hread : read2 cs with - | ⟨nh, rest⟩
  · rw [hread] at h; exact absurd h (by simp)
  · rw [hread] at h
    rcases rest with - | ⟨c, rest2⟩
    · exact absurd h (by simp)
    · simp only [Bool.and_eq_true, decide_eq_true_eq] at h
      obtain ⟨⟨hc, -⟩, hm⟩ := h
      rcases hread2 : read2 rest2 with - | ⟨nm, rest3⟩
      · rw [hread2] at hm; exact absurd hm (by simp)
      · rw [hread2] at hm
        simp only [Bool.and_eq_true, List.isEmpty_iff] at hm
        obtain ⟨hemp, -⟩ := hm
        obtain ⟨a, b, hcs, ha, hb⟩ := read2_sound cs nh (c :: rest2) hread
        obtain ⟨a2, b2, hrest2, ha2, hb2⟩ := read2_sound rest2 nm rest3 hread2
        subst hc
        subst hemp
        rw [hcs, hrest2]
        exact noZPmem_cons _ _ (isDigitC_ne a ha).1 (isDigitC_ne a ha).2
          (noZPmem_cons _ _ (isDigitC_ne b hb).1 (isDigitC_ne b hb).2
            (noZPmem_cons ':' _ (by decide) (by decide)
              (noZPmem_cons _ _ (isDigitC_ne a2 ha2).1 (isDigitC_ne a2 ha2).2
                (noZPmem_cons _ _ (isDigitC_ne b2 hb2).1 (isDigitC_ne b2 hb2).2
                  noZPmem_nil))))

theorem parseOffset_ok (cs : List Char) (h : parseOffset cs = true) :
    'Z' ∉ cs ∧ cs.count '+' ≤ 1 := by
  rcases cs with - | ⟨c, rest⟩
  · exact ⟨List.not_mem_nil _, by simp⟩
  · simp only [parseOffset, Bool.and_eq_true, Bool.or_eq_true, decide_eq_true_eq] at h
    obtain ⟨hc, hhm⟩ := h
    obtain ⟨hz, hp⟩ := parseHM_ok rest hhm
    have hcount : rest.count '+' = 0 := List.count_eq_zero.mpr hp
    constructor
    · intro hmem
      rcases List.mem_cons.mp hmem with h1 | h1
      · rcases hc with rfl | rfl
        · exact absurd h1 (by decide)
        · exact absurd h1 (by decide)
      · exact hz h1
    · simp only [List.count_cons, beq_iff_eq]
      rcases hc with rfl | rfl
      · rw [if_pos rfl]; omega
      · rw [if_neg (by decide)]; omega

theorem parseFracOffset_ok (cs : List Char) (h : parseFracOffset cs = true) :
    'Z' ∉ cs ∧ cs.count '+' ≤ 1 := by
  rcases cs with - | ⟨c, rest⟩
  · exact ⟨List.not_mem_nil _, by simp⟩
  · simp only [parseFracOffset] at h
    by_cases hdot : c = '.'
    · rw [if_pos hdot] at h
      simp only [Bool.and_eq_true, decide_eq_true_eq] at h
      obtain ⟨-, hoff⟩ := h
      obtain ⟨hzo, hco⟩ := parseOffset_ok _ hoff
      subst hdot
      have hsplit := List.takeWhile_append_dropWhile isDigitC rest
      constructor
      · intro hmem
        rcases List.mem_cons.mp hmem with h1 | h1
        · exact absurd h1 (by decide)
        · rw [← hsplit] at h1
          rcases List.mem_append.mp h1 with h2 | h2
          · exact (isDigitC_ne _ (List.mem_takeWhile_imp h2)).1 rfl
          · exact hzo h2
      · simp only [List.count_cons, beq_iff_eq]
        rw [if_neg (by decide)]
        have hc0 : (rest.takeWhile isDigitC).count '+' = 0 :=
          List.count_eq_zero.mpr
            (fun hmem => (isDigitC_ne _ (List.mem_takeWhile_imp hmem)).2 rfl)
        have hsum : rest.count '+'
            = (rest.takeWhile isDigitC).count '+' + (rest.dropWhile isDigitC).count '+' := by
          conv_lhs => rw [← hsplit]
          exact List.count_append _ _ _
        omega
    · rw [if_neg hdot] at h
      exact parseOffset_ok _ h

theorem parseSecond_ok (cs : List Char) (h : parseSecond cs = true) :
    'Z' ∉ cs ∧ cs.count '+' ≤ 1 := by
  rcases cs with - | ⟨c, rest⟩
  · exact ⟨List.not_mem_nil _, by simp⟩
  · simp only [parseSecond] at h
    by_cases hcol : c = ':'
    · rw [if_pos hcol] at h
      rcases hread : read2 rest with - | ⟨ns, rest2⟩
      · rw [hread] at h; exact absurd h (by simp)
      · rw [hread] at h
        simp only [Bool.and_eq_true, decide_eq_true_eq] at h
        obtain ⟨-, hfo⟩ := h
        obtain ⟨a, b, hrest, ha, hb⟩ := read2_sound rest ns rest2 hread
        subst hcol
        rw [hrest]
        exact noZP_cons ':' _ (by decide) (by decide)
          (noZP_cons_digit a _ ha (noZP_cons_digit b _ hb (parseFracOffset_ok rest2 hfo)))
    · rw [if_neg hcol] at h
      exact parseOffset_ok _ h

theorem parseMinSec_ok (cs : List Char) (h : parseMinSec cs = true) :
    'Z' ∉ cs ∧ cs.count '+' ≤ 1 := by
  rcases cs with - | ⟨c, rest⟩
  · exact ⟨List.not_mem_nil _, by simp⟩
  · simp only [parseMinSec] at h
    by_cases hcol : c = ':'
    · rw [if_pos hcol] at h
      rcases hread : read2 rest with - | ⟨nm, rest2⟩
      · rw [hread] at h; exact absurd h (by simp)
      · rw [hread] at h
        simp only [Bool.and_eq_true, decide_eq_true_eq] at h
        obtain ⟨-, hsec⟩ := h
        obtain ⟨a, b, hrest, ha, hb⟩ := read2_sound rest nm rest2 hread
        subst hcol
        rw [hrest]
        exact noZP_cons ':' _ (by decide) (by decide)
          (noZP_cons_digit a _ ha (noZP_cons_digit b _ hb (parseSecond_ok rest2 hsec)))
    · rw [if_neg hcol] at h
      exact parseOffset_ok _ h

theorem parseTime_ok (cs : List Char) (h : parseTime cs = true) :
    'Z' ∉ cs ∧ cs.count '+' ≤ 1 := by
  unfold parseTime at h
  rcases hread : read2 cs with - | ⟨nh, rest⟩
  · rw [hread] at h; exact absurd h (by simp)
  · rw [hread] at h
    simp only [Bool.and_eq_true, decide_eq_true_eq] at h
    obtain ⟨-, hms⟩ := h
    obtain ⟨a, b, hcs, ha, hb⟩ := read2_sound cs nh rest hread
    rw [hcs]
    exact noZP_cons_digit a _ ha (noZP_cons_digit b _ hb (parseMinSec_ok rest hms))

theorem dateTail_ok (cs : List Char) (h : dateTail cs = true) :
    'Z' ∉ cs ∧ cs.count '+' ≤ 1 := by
  rcases cs with - | ⟨c, rest⟩
  · exact ⟨List.not_mem_nil _, by simp⟩
  · simp only [dateTail, Bool.and_eq_true, Bool.or_eq_true, decide_eq_true_eq] at h
    obtain ⟨hc, ht⟩ := h
    rcases hc with rfl | rfl
    · exact noZP_cons 'T' _ (by decide) (by decide) (parseTime_ok rest ht)
    · exact noZP_cons ' ' _ (by decide) (by decide) (parseTime_ok rest ht)

theorem fromisoL_ok (cs : List Char) (h : fromisoL cs = true) :
    'Z' ∉ cs ∧ cs.count '+' ≤ 1 := by
  unfold fromisoL at h
  rcases hread : read4 cs with - | ⟨ny, rest⟩
  · rw [hread] at h; exact absurd h (by simp)
  · rw [hread] at h
    rcases rest with - | ⟨c1, rest1⟩
    · exact absurd h (by simp)
    · simp only [Bool.and_eq_true, decide_eq_true_eq] at h
      obtain ⟨hc1, h⟩ := h
      rcases hread2 : read2 rest1 with - | ⟨nmo, rest2⟩
      · rw [hread2] at h; exact absurd h (by simp)
      · rw [hread2] at h
        rcases rest2 with - | ⟨c2, rest3⟩
        · exact absurd h (by simp)
        · simp only [Bool.and_eq_true, decide_eq_true_eq] at h
          obtain ⟨hc2, h⟩ := h
          rcases hread3 : read2 rest3 with - | ⟨nd, rest4⟩
          · rw [hread3] at h; exact absurd h (by simp)
          · rw [hread3] at h
            simp only [Bool.and_eq_true, decide_eq_true_eq] at h
            obtain ⟨-, hdt⟩ := h
            obtain ⟨a, b, c, d, hcs, ha, hb, hc, hd⟩ :=
              read4_sound cs ny (c1 :: rest1) hread
            obtain ⟨e, f, hrest1, he, hf⟩ := read2_sound rest1 nmo (c2 :: rest3) hread2
            obtain ⟨g, i, hrest3, hg, hi⟩ := read2_sound rest3 nd rest4 hread3
            subst hc1
            subst hc2
            rw [hcs, hrest1, hrest3]
            exact noZP_cons_digit a _ ha (noZP_cons_digit b _ hb
              (noZP_cons_digit c _ hc (noZP_cons_digit d _ hd
                (noZP_cons '-' _ (by decide) (by decide)
                  (noZP_cons_digit e _ he (noZP_cons_digit f _ hf
                    (noZP_cons '-' _ (by decide) (by decide)
                      (noZP_cons_digit g _ hg (noZP_cons_digit i _ hi
                        (dateTail_ok rest4 hdt))))))))))

/-! ## `ts.replace("Z", "+00:00")` versus replacing only the trailing `Z` -/

theorem replaceZ_append (a b : List Char) :
    replaceZ (a ++ b) = replaceZ a ++ replaceZ b := by
  induction a with
  | nil => rfl
  | cons c cs ih =>
    simp only [List.cons_append, replaceZ, List.append_eq]
    by_cases hz : c = 'Z'
    · rw [if_pos hz, if_pos hz, ih]
      rfl
    · rw [if_neg hz, if_neg hz, ih]
      rfl

theorem replaceZ_of_no_z (a : List Char) (h : 'Z' ∉ a) : replaceZ a = a := by
  induction a with
  | nil => rfl
  | cons c cs ih =>
    simp only [replaceZ]
    rw [if_neg ?hc]
    case hc =>
      intro he
      subst he
      exact h (List.mem_cons_self _ _)
    rw [ih (fun hm => h (List.mem_cons_of_mem c hm))]

theorem count_plus_replaceZ (a : List Char) :
    (replaceZ a).count '+' = a.count '+' + a.count 'Z' := by
  induction a with
  | nil => rfl
  | cons c cs ih =>
    simp only [replaceZ]
    by_cases hz : c = 'Z'
    · subst hz
      rw [if_pos rfl]
      have e1 : (if ('Z' : Char) = '+' then 1 else 0) = 0 := by decide
      have e2 : (if ('0' : Char) = '+' then 1 else 0) = 0 := by decide
      have e3 : (if (':' : Char) = '+' then 1 else 0) = 0 := by decide
      have e4 : (if ('+' : Char) = '+' then 1 else 0) = 1 := by decide
      simp only [List.count_cons, beq_iff_eq, ih, e1, e2, e3, e4]
      omega
    · rw [if_neg hz]
      by_cases hp : c = '+'
      · subst hp
        have e4 : (if ('+' : Char) = '+' then 1 else 0) = 1 := by decide
        have e5 : (if ('+' : Char) = 'Z' then 1 else 0) = 0 := by decide
        simp only [List.count_cons, beq_iff_eq, ih, e4, e5]
        omega
      · simp only [List.count_cons, beq_iff_eq, ih, if_neg hp, if_neg hz]
        omega

theorem fromiso_replaceZ_eq (cs : List Char) (h : cs.getLast? = some 'Z') :
    fromisoL (replaceZ cs)
      = fromisoL (cs.dropLast ++ ['+', '0', '0', ':', '0', '0']) := by
  have hne : cs ≠ [] := by
    intro he
    rw [he] at h
    simp at h
  have hlast : cs.getLast hne = 'Z' := by
    have h2 := List.getLast?_eq_getLast cs hne
    rw [h2] at h
    exact Option.some.inj h
  have hcs : cs = cs.dropLast ++ ['Z'] := by
    have h4 := List.dropLast_append_getLast hne
    rw [hlast] at h4
    exact h4.symm
  by_cases hz : 'Z' ∈ cs.dropLast
  · have hrhs : fromisoL (cs.dropLast ++ ['+', '0', '0', ':', '0', '0']) = false := by
      rcases Bool.eq_false_or_eq_true
          (fromisoL (cs.dropLast ++ ['+', '0', '0', ':', '0', '0'])) with hb | hb
      · exact absurd (List.mem_append.mpr (Or.inl hz)) (fromisoL_ok _ hb).1
      · exact hb
    have hlhs : fromisoL (replaceZ cs) = false := by
      rcases Bool.eq_false_or_eq_true (fromisoL (replaceZ cs)) with hb | hb
      · exfalso
        have hcount := (fromisoL_ok _ hb).2
        rw [count_plus_replaceZ] at hcount
        have h2 : 2 ≤ cs.count 'Z' := by
          conv_rhs => rw [hcs]
          rw [List.count_append]
          have h3 : 0 < cs.dropLast.count 'Z' := List.count_pos_iff.mpr hz
          have h4 : List.count 'Z' ['Z'] = 1 := by decide
          omega
        omega
      · exact hb
    rw [hlhs, hrhs]
  · conv_lhs => rw [hcs]
    rw [replaceZ_append, replaceZ_of_no_z _ hz]
    rfl

/-! ## Assembling the validation pipeline -/

theorem E164_match_eq_amended (s : String) : E164_match s = E164amended s :=
  E164core_eq_amended s.data

theorem ts_code_eq_spec (ts : String) :
    (lastZ ts && fromisoL (replaceZ ts.data))
      = (lastZ ts && fromisoL (ts.data.dropLast ++ ['+', '0', '0', ':', '0', '0'])) := by
  cases hzb : lastZ ts with
  | true =>
    rw [Bool.true_and, Bool.true_and]
    exact fromiso_replaceZ_eq ts.data (of_decide_eq_true hzb)
  | false => rfl

theorem validate_fields_ok_iff (m : WebhookMessage) :
    (m.validate_fields = Except.ok ()) ↔
    (E164_match m.from_ && E164_match m.to_ &&
      (lastZ m.ts && fromisoL (replaceZ m.ts.data))) = true := by
  unfold WebhookMessage.validate_fields
  by_cases h1 : E164_match m.from_ = true <;>
    by_cases h2 : E164_match m.to_ = true <;>
      by_cases h3 : lastZ m.ts = true <;>
        by_cases h4 : fromisoL (replaceZ m.ts.data) = true <;>
          simp [h1, h2, h3, h4]

theorem exists_ok_through (m : WebhookMessage) :
    (∃ m2, (match m.validate_fields with
        | Except.error e => Except.error e
        | Except.ok _ => Except.ok m) = Except.ok m2)
      ↔ m.validate_fields = Except.ok () := by
  rcases hv : m.validate_fields with e | u
  · simp [hv]
  · cases u
    simp [hv]

/-- Claim C5 (amended): validation of a decoded payload succeeds exactly
when `message_id` is present and non-empty, `from` and `to` each match the
E.164 pattern optionally followed by one trailing newline (an artifact of
the regex's `$` anchor), `ts` ends with a literal `Z` and parses as an
ISO-8601 date-time with the trailing `Z` read as the UTC offset `+00:00`,
and `text`, when present, is at most 4096 characters; and whenever
validation rejects, the webhook answers 422 (`validationError`) with the
store unchanged — all-or-nothing. -/
theorem C5_validation_amended (p : JsonPayload) :
    ((∃ m, validatePayload p = Except.ok m) ↔ amendedValidB p = true) ∧
    (∀ (secret : String) (raw : List Nat) (now : String) (store : List Row),
      secret ≠ "" → amendedValidB p = false →
      ∃ d, webhook secret (compute_signature secret raw) raw (some p) now store
        = (HttpResponse.validationError d, store)) := by
  have hpart1 : (∃ m, validatePayload p = Except.ok m) ↔ amendedValidB p = true := by
    obtain ⟨mq, fq, tq, tsq, txq⟩ := p
    rcases mq with - | mid
    · simp [validatePayload, WebhookMessage.fromPayload, amendedValidB]
    rcases fq with - | f
    · simp [validatePayload, WebhookMessage.fromPayload, amendedValidB]
    rcases tq with - | t
    · simp [validatePayload, WebhookMessage.fromPayload, amendedValidB]
    rcases tsq with - | ts
    · simp [validatePayload, WebhookMessage.fromPayload, amendedValidB]
    rcases txq with - | tx
    · simp only [validatePayload, WebhookMessage.fromPayload, amendedValidB]
      rw [← E164_match_eq_amended f, ← E164_match_eq_amended t, ← ts_code_eq_spec ts]
      by_cases hlen : mid.data.length < 1
      · have hd : decide (1 ≤ mid.data.length) = false := by
          simp only [decide_eq_false_iff_not]
          omega
        rw [if_pos hlen, hd]
        simp
      · have hd : decide (1 ≤ mid.data.length) = true := by
          simp only [decide_eq_true_eq]
          omega
        rw [if_neg hlen, hd]
        rw [exists_ok_through, validate_fields_ok_iff]
        simp [Bool.and_assoc]
    · simp only [validatePayload, WebhookMessage.fromPayload, amendedValidB]
      rw [← E164_match_eq_amended f, ← E164_match_eq_amended t, ← ts_code_eq_spec ts]
      by_cases hlen : mid.data.length < 1
      · have hd : decide (1 ≤ mid.data.length) = false := by
          simp only [decide_eq_false_iff_not]
          omega
        rw [if_pos hlen, hd]
        simp
      · have hd : decide (1 ≤ mid.data.length) = true := by
          simp only [decide_eq_true_eq]
          omega
        rw [if_neg hlen, hd]
        by_cases htx : 4096 < tx.data.length
        · have hdt : decide (tx.data.length ≤ 4096) = false := by
            simp only [decide_eq_false_iff_not]
            omega
          rw [if_pos htx, hdt]
          simp
        · have hdt : decide (tx.data.length ≤ 4096) = true := by
            simp only [decide_eq_true_eq]
            omega
          rw [if_neg htx, hdt]
          rw [exists_ok_through, validate_fields_ok_iff]
          simp [Bool.and_assoc]
  refine ⟨hpart1, ?_⟩
  intro secret raw now store hsec hfalse
  rcases hv : validatePayload p with e | m
  · refine ⟨e, ?_⟩
    simp [webhook, hsec, compute_signature_ne secret raw, hv]
  · exact absurd (hpart1.mp ⟨m, hv⟩) (by rw [hfalse]; exact Bool.false_ne_true)

/-- Claim C5 counterexample: the payload whose `from` is a valid E.164
number followed by one newline is accepted by the code's validation, yet
the claim's conditions (exact E.164 match) reject it. -/
theorem C5_e164_newline_counterexample :
    (∃ m, validatePayload newlinePayload = Except.ok m) ∧
    specValidB newlinePayload = false := by
  constructor
  · exact ⟨WebhookMessage.mk "nl1" "+91123456789\x0a" "+14155550100"
      "2025-01-15T10:00:00Z" none, rfl⟩
  · decide

/-- Witness for C5 at the invalid payload whose `from` lacks the leading
`+`: validation rejects it and the webhook answers 422 with the store
unchanged. -/
theorem C5_witness :
    ((∃ m, validatePayload badPayload = Except.ok m) ↔
      amendedValidB badPayload = true) ∧
    (∃ d, webhook "testsecret" (compute_signature "testsecret" []) []
        (some badPayload) "now" []
      = (HttpResponse.validationError d, [])) :=
  ⟨(C5_validation_amended badPayload).1,
   (C5_validation_amended badPayload).2 "testsecret" [] "now" [] (by decide) (by decide)⟩
